import Mathlib

/-!
Shallow embedding of `fantasy_football_playoff_calculator.py` (the playoff
probability calculator) and verification of its specification claims.

Modelling conventions:
* Python `list` becomes `List`; in-place element mutation (`teams[i].x += 1`,
  `team_matrix[r][c] = v`) becomes the functional update `listModify` / `List.set`,
  threading the updated lists through the computation.
* Python's stable `list.sort(key=k, reverse=True)` is modelled by
  `List.insertionSort (fun a b => k b ≤ k a)`: insertion sort with this
  relation is exactly a stable descending sort by the key `k`.
* `random.choice([x.roster_id, x.opponent_roster_id])` is modelled by an
  explicit tape of booleans (`true` picks `roster_id`), indexed by the
  position of the matchup in the remaining-matchup list; Monte Carlo runs
  take the tape as a parameter, making the sampled outcomes explicit inputs.
* Machine integers become `ℕ`; fantasy points (Python floats, used only as
  sort keys and compared exactly) become `ℚ`.
* The recursion of `ProcessWeeklyMatchups` over matchup periods is driven by
  explicit fuel; the entry point supplies
  `last_week_of_regular_season - current_week`, which is exactly the depth
  the Python recursion reaches, so the out-of-fuel branch is never taken on
  the modelled entry point.
* Multiprocessing (`mp.Pool`) is modelled by running the workers
  sequentially and reducing their results exactly as the source's
  aggregation loop does; `mp.cpu_count()` is an explicit parameter.
-/

/-- Mirror of the Python dataclass `Team` (fields used by the core engine). -/
structure Team where
  roster_id : ℕ
  wins : ℕ
  losses : ℕ
  fantasy_points_for : ℚ
  fantasy_points_against : ℚ
  playoff_scenarios : ℕ := 0
  guaranteed_playoff_scenarios : ℕ := 0
  deriving Repr, DecidableEq

instance : Inhabited Team :=
  ⟨{ roster_id := 0, wins := 0, losses := 0, fantasy_points_for := 0,
     fantasy_points_against := 0 }⟩

/-- Mirror of the Python dataclass `League` (fields used by the core engine). -/
structure League where
  current_week : ℕ
  last_week_of_regular_season : ℕ
  playoff_week_start : ℕ
  number_of_teams : ℕ
  number_of_playoff_teams : ℕ
  deriving Repr, DecidableEq

/-- Mirror of the Python dataclass `Matchup`.  The transient `None` opponent
that only occurs while `ImportMatchups` is pairing up the Sleeper API rows is
out of scope (the core engine always receives fully paired matchups), so the
opponent is a plain roster id here. -/
structure Matchup where
  matchup_period : ℕ
  matchup_id : ℕ
  roster_id : ℕ
  opponent_roster_id : ℕ
  deriving Repr, DecidableEq

/-- Functional update of one list element, modelling Python's in-place
mutation `l[i] = f(l[i])`; out-of-range indices leave the list unchanged. -/
def listModify {α : Type} (f : α → α) : ℕ → List α → List α
  | _, [] => []
  | 0, a :: l => f a :: l
  | n + 1, a :: l => a :: listModify f n l

/-- Total wins of the team at index `i` for the current scenario:
`team.wins + sum(team_matrix[team_idx][league.current_week-1:])`
(lines 164 and 349 of the source compute exactly this expression). -/
def teamTotalWins (league : League) (team_matrix : List (List ℕ)) (i : ℕ) (t : Team) : ℕ :=
  t.wins + ((team_matrix.getD i []).drop (league.current_week - 1)).sum

/-- The `(team_idx, total_wins)` pairs built by `DeterminePlayoffChances`
(source lines 349-350). -/
def teamWinsPairs (teams : List Team) (league : League) (team_matrix : List (List ℕ)) :
    List (ℕ × ℕ) :=
  teams.enum.map (fun p => (p.1, teamTotalWins league team_matrix p.1 p.2))

/-- The `(team_idx, total_wins)` pairs after Python's stable descending sort
by the wins component (source line 353). -/
def sortedTeamWins (teams : List Team) (league : League) (team_matrix : List (List ℕ)) :
    List (ℕ × ℕ) :=
  (teamWinsPairs teams league team_matrix).insertionSort (fun a b => b.2 ≤ a.2)

/-- One iteration of the update loop of `DeterminePlayoffChances`
(source lines 361-365): `p` is a `(team_idx, wins)` pair from the sorted list. -/
def determineStep (cutoff_wins : ℕ) (ts : List Team) (p : ℕ × ℕ) : List Team :=
  let ts1 := if cutoff_wins ≤ p.2 then
    listModify (fun t => { t with playoff_scenarios := t.playoff_scenarios + 1 }) p.1 ts
  else ts
  if cutoff_wins < p.2 then
    listModify (fun t => { t with guaranteed_playoff_scenarios := t.guaranteed_playoff_scenarios + 1 }) p.1 ts1
  else ts1

/-- Mirror of `DeterminePlayoffChances` (source lines 344-365).  The sort is
Python's stable descending sort by the wins component.  When
`number_of_playoff_teams = 0`, Python's `team_wins[playoff_spots-1]` indexes
position `-1`, i.e. the last element, which the model reproduces with
`getLastD`. -/
def DeterminePlayoffChances (teams : List Team) (league : League)
    (team_matrix : List (List ℕ)) : List Team :=
  let sorted := sortedTeamWins teams league team_matrix
  if league.number_of_playoff_teams ≤ sorted.length then
    let cutoff_wins := if league.number_of_playoff_teams = 0 then (sorted.getLastD (0, 0)).2
      else (sorted.getD (league.number_of_playoff_teams - 1) (0, 0)).2
    sorted.foldl (determineStep cutoff_wins) teams
  else teams

/-- Mirror of `can_skip_scenario` (source lines 158-179): build
`(team_idx, current_total, max_possible)` triples, stable-sort them
descending by `max_possible`, and test whether some team among the first
`number_of_playoff_teams` has `current_total` above the boundary team's
`max_possible`.  (For `number_of_playoff_teams = 0` the Python `-1` index
reads the last element, but the empty `range(0)` loop returns `False`
either way, which the model reproduces.) -/
def can_skip_scenario (remaining_weeks : ℕ) (teams : List Team) (league : League)
    (team_matrix : List (List ℕ)) : Bool :=
  let current_wins := teams.enum.map (fun p =>
    let ct := teamTotalWins league team_matrix p.1 p.2
    (p.1, ct, ct + remaining_weeks))
  let sorted := current_wins.insertionSort (fun a b => b.2.2 ≤ a.2.2)
  if league.number_of_playoff_teams ≤ sorted.length then
    let cutoff_max := (sorted.getD (league.number_of_playoff_teams - 1) (0, 0, 0)).2.2
    (List.range league.number_of_playoff_teams).any
      (fun i => cutoff_max < (sorted.getD i (0, 0, 0)).2.1)
  else false

/-- All winner assignments for `k` matchups in the order produced by
`itertools.product([0, 1], repeat=k)`: the first matchup's bit varies
slowest, `0` before `1`. -/
def combos : ℕ → List (List ℕ)
  | 0 => [[]]
  | k + 1 => ((combos k).map (0 :: ·)) ++ ((combos k).map (1 :: ·))

/-- Apply one winner combination to the team matrix (source lines 142-145):
for each `(team_idx, opp_idx)` pair, write the bit into the team's column and
the complement into the opponent's column. -/
def applyCombination (mat : List (List ℕ)) (col : ℕ) (roster_indices : List (ℕ × ℕ))
    (combination : List ℕ) : List (List ℕ) :=
  (roster_indices.zip combination).foldl (fun m pb =>
    let m1 := listModify (fun row => row.set col pb.2) pb.1.1 m
    listModify (fun row => row.set col (1 - pb.2)) pb.1.2 m1) mat

/-- Body of `ProcessWeeklyMatchups` for one matchup period (source lines
126-155), parameterised by the continuation `recurse` used for the next
period and by whether the pruning filter is active (`pruning = true` is the
source; `pruning = false` is the filter-removed variant the spec's pruning
equivalence property compares against). -/
def weeklyFold (pruning : Bool) (league : League) (matchups : List Matchup)
    (matchupPeriod : ℕ) (recurse : List Team → List (List ℕ) → List Team × List (List ℕ))
    (teams : List Team) (mat : List (List ℕ)) : List Team × List (List ℕ) :=
  let weeklyMatchups := matchups.filter (fun m => m.matchup_period = matchupPeriod)
  let col := matchupPeriod - 1
  let roster_indices := weeklyMatchups.map (fun m => (m.roster_id - 1, m.opponent_roster_id - 1))
  let remaining_weeks := league.last_week_of_regular_season - matchupPeriod + 1
  (combos weeklyMatchups.length).foldl (fun st bits =>
    let mat1 := applyCombination st.2 col roster_indices bits
    if pruning && decide (remaining_weeks ≤ 3) &&
        can_skip_scenario remaining_weeks st.1 league mat1 then
      (st.1, mat1)
    else if matchupPeriod = league.last_week_of_regular_season then
      (DeterminePlayoffChances st.1 league mat1, mat1)
    else
      recurse st.1 mat1) (teams, mat)

/-- Fuel-indexed recursion of `ProcessWeeklyMatchups` over matchup periods.
The entry point supplies fuel `last_week_of_regular_season - current_week`,
which matches the Python recursion depth exactly, so the zero-fuel
continuation (which stops recursing) is never reached from the entry point. -/
def ProcessWeeklyMatchupsAux (pruning : Bool) (league : League) (matchups : List Matchup) :
    ℕ → ℕ → List Team → List (List ℕ) → List Team × List (List ℕ)
  | 0, matchupPeriod, teams, mat =>
    weeklyFold pruning league matchups matchupPeriod (fun ts m => (ts, m)) teams mat
  | fuel + 1, matchupPeriod, teams, mat =>
    weeklyFold pruning league matchups matchupPeriod
      (ProcessWeeklyMatchupsAux pruning league matchups fuel (matchupPeriod + 1)) teams mat

/-- Mirror of the exact-mode entry point: `ProcessWeeklyMatchups` called at
`league.current_week` (source line 487), with the pruning filter enabled as
in the source.  Returns the updated teams together with the final state of
the shared team matrix. -/
def ProcessWeeklyMatchups (teams : List Team) (matchups : List Matchup) (league : League)
    (mat : List (List ℕ)) : List Team × List (List ℕ) :=
  ProcessWeeklyMatchupsAux true league matchups
    (league.last_week_of_regular_season - league.current_week) league.current_week teams mat

/-- Simulated win totals for one Monte Carlo draw (source lines 195-203 and
262-271): start from the base wins and, for each remaining matchup, add one
win to the tape-chosen winner (`true` picks `roster_id`). -/
def simulateWins (base : List ℕ) (remaining_matchups : List Matchup) (coins : ℕ → Bool) :
    List ℕ :=
  remaining_matchups.enum.foldl (fun sw p =>
    if coins p.1 then listModify (· + 1) (p.2.roster_id - 1) sw
    else listModify (· + 1) (p.2.opponent_roster_id - 1) sw) base

/-- Recursive form of the tie-grouping loop of `MonteCarloSimulation`
(source lines 210-221): `cw` is `current_wins`, `cur` is `current_group`;
equal-wins records extend the current group, a new wins value flushes it. -/
def groupLoop (cw : ℕ) (cur : List (ℕ × ℕ)) : List (ℕ × ℕ) → List (List (ℕ × ℕ))
  | [] => [cur]
  | y :: ys => if y.2 = cw then groupLoop cw (cur ++ [y]) ys
    else cur :: groupLoop y.2 [y] ys

/-- Group a (sorted) list of `(team_idx, wins)` records into maximal runs of
consecutive equal wins, as the Python loop does.  Python indexes
`team_records[0]` and so would raise on an empty league; the model returns
no groups there. -/
def tiedGroups : List (ℕ × ℕ) → List (List (ℕ × ℕ))
  | [] => []
  | x :: xs => groupLoop x.2 [x] xs

/-- Simulated wins of the team at index `i` (0 when out of range, which the
real runs never hit). -/
def wGet (sim_wins : List ℕ) (i : ℕ) : ℕ := sim_wins.getD i 0

/-- Points-for of the team at index `i`, i.e. `teams[i].fantasy_points_for`
(the default team's 0 when out of range, which the real runs never hit). -/
def pGet (teams : List Team) (i : ℕ) : ℚ := (teams.getD i default).fantasy_points_for

/-- The `(i, wins)` records stable-sorted descending by wins (source lines
206-207). -/
def winsSorted (sim_wins : List ℕ) : List (ℕ × ℕ) :=
  (sim_wins.enum).insertionSort (fun a b => b.2 ≤ a.2)

/-- Tie resolution within one group (source lines 226-228): groups with more
than one record are stable-sorted descending by `teams[i].fantasy_points_for`. -/
def sortGroup (teams : List Team) (group : List (ℕ × ℕ)) : List (ℕ × ℕ) :=
  if 1 < group.length then
    group.insertionSort (fun a b => pGet teams b.1 ≤ pGet teams a.1)
  else group

/-- Mirror of the standings resolution of `MonteCarloSimulation` (source
lines 206-229): stable-sort `(i, wins)` descending by wins, group ties, sort
each group of size `> 1` by `teams[i].fantasy_points_for` descending, and
concatenate the team indices. -/
def mcFinalRankings (teams : List Team) (sim_wins : List ℕ) : List ℕ :=
  let sorted := winsSorted sim_wins
  let tied_groups := tiedGroups sorted
  tied_groups.foldl (fun acc group => acc ++ (sortGroup teams group).map (·.1)) []

/-- Counter increments applied to the team at index `team_idx` for one
counted Monte Carlo draw (source lines 237-241): `playoff_scenarios` always
increments, `guaranteed_playoff_scenarios` increments when the team's
simulated wins strictly exceed the cutoff. -/
def incTeamAt (cutoff_wins : ℕ) (sim_wins : List ℕ) (team_idx : ℕ) (ts : List Team) :
    List Team :=
  let ts1 := listModify (fun t => { t with playoff_scenarios := t.playoff_scenarios + 1 })
    team_idx ts
  if cutoff_wins < sim_wins.getD team_idx 0 then
    listModify (fun t => { t with guaranteed_playoff_scenarios := t.guaranteed_playoff_scenarios + 1 })
      team_idx ts1
  else ts1

/-- One iteration of the counting loop of `MonteCarloSimulation` (source
lines 235-241), incrementing the counters of the team ranked at position `i`. -/
def mcStep (rankings : List ℕ) (sim_wins : List ℕ) (cutoff_wins : ℕ)
    (ts : List Team) (i : ℕ) : List Team :=
  incTeamAt cutoff_wins sim_wins (rankings.getD i 0) ts

/-- The cutoff wins of one `MonteCarloSimulation` draw (source lines
232-233): the simulated wins of the team ranked at the playoff boundary. -/
def mcCutoffWins (teams : List Team) (league : League) (sim_wins : List ℕ) : ℕ :=
  let final_rankings := mcFinalRankings teams sim_wins
  let playoff_cutoff := min league.number_of_playoff_teams final_rankings.length
  if 0 < playoff_cutoff then sim_wins.getD (final_rankings.getD (playoff_cutoff - 1) 0) 0
  else 0

/-- Standings resolution and counting for one draw of `MonteCarloSimulation`
(source lines 206-241). -/
def mcCountDraw (teams : List Team) (league : League) (sim_wins : List ℕ) : List Team :=
  let final_rankings := mcFinalRankings teams sim_wins
  let playoff_cutoff := min league.number_of_playoff_teams final_rankings.length
  (List.range playoff_cutoff).foldl
    (mcStep final_rankings sim_wins (mcCutoffWins teams league sim_wins)) teams

/-- One full simulation iteration of `MonteCarloSimulation` (source lines
193-241). -/
def mcSimStep (league : League) (remaining_matchups : List Matchup) (coins : ℕ → Bool)
    (ts : List Team) : List Team :=
  mcCountDraw ts league (simulateWins (ts.map (·.wins)) remaining_matchups coins)

/-- Reset of the per-team scenario counters (source lines 187-189 and
296-298). -/
def resetCounters (teams : List Team) : List Team :=
  teams.map (fun t => { t with playoff_scenarios := 0, guaranteed_playoff_scenarios := 0 })

/-- Mirror of `MonteCarloSimulation` (source lines 182-241), with the random
choices supplied by `tape` (draw index, then matchup index). -/
def MonteCarloSimulation (num_simulations : ℕ) (teams : List Team) (matchups : List Matchup)
    (league : League) (tape : ℕ → ℕ → Bool) : List Team :=
  let remaining_matchups := matchups.filter (fun m => league.current_week ≤ m.matchup_period)
  (List.range num_simulations).foldl
    (fun ts k => mcSimStep league remaining_matchups (tape k) ts) (resetCounters teams)

/-- Comparison used by the parallel worker's single sort (source line 275):
Python's stable sort by the key pair `(wins, points_for)` with
`reverse=True`, i.e. the key of `b` is lexicographically at most the key of
`a`. -/
def workerRel (a b : ℕ × ℕ × ℚ) : Prop :=
  b.2.1 < a.2.1 ∨ (b.2.1 = a.2.1 ∧ b.2.2 ≤ a.2.2)

instance : DecidableRel workerRel := fun a b => by
  unfold workerRel; infer_instance

/-- Records `(i, wins, points_for)` built by the parallel worker (source
line 274). -/
def workerRecords (teams_data : List (ℕ × ℚ)) (sim_wins : List ℕ) : List (ℕ × ℕ × ℚ) :=
  sim_wins.enum.map (fun p => (p.1, p.2, (teams_data.getD p.1 (0, 0)).2))

/-- Counter increments applied to the worker's local arrays at `team_idx`
for one counted draw (source lines 283-286). -/
def incLocalsAt (cutoff_wins : ℕ) (sim_wins : List ℕ) (team_idx : ℕ)
    (st : List ℕ × List ℕ) : List ℕ × List ℕ :=
  (listModify (· + 1) team_idx st.1,
   if cutoff_wins < sim_wins.getD team_idx 0 then listModify (· + 1) team_idx st.2 else st.2)

/-- The worker's records after its single lexicographic sort (source line
275). -/
def workerSortedRecords (teams_data : List (ℕ × ℚ)) (sim_wins : List ℕ) :
    List (ℕ × ℕ × ℚ) :=
  (workerRecords teams_data sim_wins).insertionSort workerRel

/-- The ranking the worker's sort induces: the team indices of the sorted
records in order. -/
def workerRankings (teams_data : List (ℕ × ℚ)) (sim_wins : List ℕ) : List ℕ :=
  (workerSortedRecords teams_data sim_wins).map Prod.fst

/-- Spec-side total order on team indices: descending simulated wins, then
descending points-for, then ascending index.  Both engines' standings
resolutions produce exactly this order. -/
def rankRel (teams : List Team) (sim_wins : List ℕ) (i j : ℕ) : Prop :=
  wGet sim_wins j < wGet sim_wins i ∨
  (wGet sim_wins j = wGet sim_wins i ∧
    (pGet teams j < pGet teams i ∨ (pGet teams j = pGet teams i ∧ i ≤ j)))

/-- The cutoff wins of one parallel-worker draw (source lines 278-279). -/
def workerCutoffWins (teams_data : List (ℕ × ℚ)) (playoff_spots : ℕ) (sim_wins : List ℕ) : ℕ :=
  let team_records := workerSortedRecords teams_data sim_wins
  let playoff_cutoff := min playoff_spots team_records.length
  if 0 < playoff_cutoff then (team_records.getD (playoff_cutoff - 1) (0, 0, 0)).2.1
  else 0

/-- Standings resolution and counting for one draw of
`parallel_monte_carlo_worker` (source lines 273-286), acting on the worker's
local counter arrays. -/
def workerCountDraw (teams_data : List (ℕ × ℚ)) (playoff_spots : ℕ) (sim_wins : List ℕ)
    (locals : List ℕ × List ℕ) : List ℕ × List ℕ :=
  let team_records := workerSortedRecords teams_data sim_wins
  let playoff_cutoff := min playoff_spots team_records.length
  (List.range playoff_cutoff).foldl (fun st i =>
    incLocalsAt (workerCutoffWins teams_data playoff_spots sim_wins) sim_wins
      (team_records.getD i (0, 0, 0)).1 st) locals

/-- Mirror of `parallel_monte_carlo_worker` (source lines 251-288): run
`simulations_per_worker` draws from zeroed local counters and return the
local `(playoff, guaranteed)` scenario counts. -/
def parallel_monte_carlo_worker (simulations_per_worker : ℕ) (remaining_matchups : List Matchup)
    (teams_data : List (ℕ × ℚ)) (playoff_spots : ℕ) (tape : ℕ → ℕ → Bool) :
    List ℕ × List ℕ :=
  (List.range simulations_per_worker).foldl (fun st k =>
    workerCountDraw teams_data playoff_spots
      (simulateWins (teams_data.map (·.1)) remaining_matchups (tape k)) st)
    (List.replicate teams_data.length 0, List.replicate teams_data.length 0)

/-- Worker count chosen by `parallel_monte_carlo_simulation` (source line
324): `min(mp.cpu_count(), 8)`. -/
def numWorkers (cpu_count : ℕ) : ℕ := min cpu_count 8

/-- Total number of draws actually performed by
`parallel_monte_carlo_simulation`: each of the `numWorkers cpu_count`
workers runs `num_simulations // num_workers` draws (source lines 325-331),
so the remainder `num_simulations % num_workers` draws are never run. -/
def parallelTotalDraws (num_simulations cpu_count : ℕ) : ℕ :=
  numWorkers cpu_count * (num_simulations / numWorkers cpu_count)

/-- Mirror of `parallel_monte_carlo_simulation` (source lines 291-341): reset
counters, run the workers (sequentially in the model, each with its own
random tape), and sum all workers' counters element-wise into the teams. -/
def parallel_monte_carlo_simulation (num_simulations : ℕ) (teams : List Team)
    (matchups : List Matchup) (league : League) (cpu_count : ℕ)
    (tape : ℕ → ℕ → ℕ → Bool) : List Team :=
  let reset := resetCounters teams
  let remaining_matchups := matchups.filter (fun m => league.current_week ≤ m.matchup_period)
  let teams_data := teams.map (fun t => (t.wins, t.fantasy_points_for))
  let simulations_per_worker := num_simulations / numWorkers cpu_count
  let results := (List.range (numWorkers cpu_count)).map (fun w =>
    parallel_monte_carlo_worker simulations_per_worker remaining_matchups teams_data
      league.number_of_playoff_teams (tape w))
  results.foldl (fun ts res =>
    (List.range teams.length).foldl (fun ts2 i =>
      listModify (fun t =>
        { t with playoff_scenarios := t.playoff_scenarios + res.1.getD i 0,
                 guaranteed_playoff_scenarios := t.guaranteed_playoff_scenarios + res.2.getD i 0 })
        i ts2) ts) reset

/-- Mirror of `should_use_monte_carlo` (source lines 244-248) with the
default threshold `100000`. -/
def should_use_monte_carlo (scenarios : ℕ) (threshold : ℕ) : Bool :=
  threshold < scenarios

/-- Scenario count computed by `main` (source line 465):
`(2 ** (number_of_teams / 2)) ** (last_week - (current_week - 1))`.
Python evaluates this in floating point with true division; the natural
number model agrees with it exactly for even team counts (the only counts
for which `number_of_teams / 2` is integral) within the float-exact range,
and diverges for odd counts (where Python computes a non-integer power such
as `2 ** 2.5`).  Every general theorem about this definition therefore
carries a `2 ∣ number_of_teams` hypothesis confining it to the domain where
the model is faithful; concrete inputs use even team counts. -/
def scenariosMain (league : League) : ℕ :=
  (2 ^ (league.number_of_teams / 2)) ^
    (league.last_week_of_regular_season - (league.current_week - 1))

/-- Number of matchups scheduled for week `w`. -/
def weeklyMatchupCount (matchups : List Matchup) (w : ℕ) : ℕ :=
  (matchups.filter (fun m => m.matchup_period = w)).length

/-- Total number of matchups scheduled in weeks `period` through
`last_week_of_regular_season`. -/
def totalMatchupsFrom (league : League) (matchups : List Matchup) (period : ℕ) : ℕ :=
  ((List.range' period (league.last_week_of_regular_season + 1 - period)).map
    (weeklyMatchupCount matchups)).sum

/-- Total number of matchups across all remaining weeks (weeks
`current_week` through `last_week_of_regular_season`). -/
def totalRemainingMatchups (league : League) (matchups : List Matchup) : ℕ :=
  totalMatchupsFrom league matchups league.current_week

/-- Spec-side notion for the Cutoff Evaluator: the per-team total-wins values
for the current scenario, in team order. -/
def totalWinsList (teams : List Team) (league : League) (team_matrix : List (List ℕ)) :
    List ℕ :=
  teams.enum.map (fun p => teamTotalWins league team_matrix p.1 p.2)

/-- Spec-side notion: a list of win totals arranged in descending order. -/
def descendingSorted (l : List ℕ) : List ℕ :=
  l.insertionSort (fun a b => b ≤ a)

/-- Spec-side notion: the total-wins value of the team ranked at 1-based
position `number_of_playoff_teams` in the descending-by-total-wins order. -/
def cutoffValue (teams : List Team) (league : League) (team_matrix : List (List ℕ)) : ℕ :=
  (descendingSorted (totalWinsList teams league team_matrix)).getD
    (league.number_of_playoff_teams - 1) 0

/-- Spec-side notion: the counter updates the Cutoff Evaluator applies to one
team whose scenario total wins are `v`: increment `playoff_scenarios` when
`v` is at least the cutoff and `guaranteed_playoff_scenarios` when `v` is
strictly above it. -/
def applyInc (cutoff v : ℕ) (t : Team) : Team :=
  let t1 := if cutoff ≤ v then { t with playoff_scenarios := t.playoff_scenarios + 1 } else t
  if cutoff < v then { t1 with guaranteed_playoff_scenarios := t1.guaranteed_playoff_scenarios + 1 }
  else t1

/-- Spec-side notion: the counter updates one counted Monte Carlo draw
applies to a ranked-in team whose simulated wins are `v`. -/
def mcApplyInc (cutoff v : ℕ) (t : Team) : Team :=
  let t1 := { t with playoff_scenarios := t.playoff_scenarios + 1 }
  if cutoff < v then { t1 with guaranteed_playoff_scenarios := t1.guaranteed_playoff_scenarios + 1 }
  else t1

/-- Relation between team lists across one computation fragment: lengths
agree, both counters are non-decreasing, and the guaranteed counter never
grows by more than the qualifying counter. -/
def CountersMono (ts ts' : List Team) : Prop :=
  ts'.length = ts.length ∧
  ∀ j : ℕ,
    (ts.getD j default).playoff_scenarios ≤ (ts'.getD j default).playoff_scenarios ∧
    (ts.getD j default).guaranteed_playoff_scenarios ≤
      (ts'.getD j default).guaranteed_playoff_scenarios ∧
    (ts'.getD j default).guaranteed_playoff_scenarios +
        (ts.getD j default).playoff_scenarios ≤
      (ts.getD j default).guaranteed_playoff_scenarios +
        (ts'.getD j default).playoff_scenarios

/-- Strengthening of `CountersMono`: additionally, the qualifying counter
grows by at most `c`. -/
def CountersAdd (c : ℕ) (ts ts' : List Team) : Prop :=
  CountersMono ts ts' ∧
  ∀ j : ℕ, (ts'.getD j default).playoff_scenarios ≤
    (ts.getD j default).playoff_scenarios + c

/-- Concrete league used for the pruning counterexample: 4 teams, 2 playoff
spots, one remaining week (week 13). -/
def c1league : League :=
  { current_week := 13, last_week_of_regular_season := 13, playoff_week_start := 14,
    number_of_teams := 4, number_of_playoff_teams := 2 }

/-- Concrete teams for the pruning counterexample: records after 12 weeks
are 12-0, 6-6, 4-8 and 2-10. -/
def c1teams : List Team :=
  [ { roster_id := 1, wins := 12, losses := 0, fantasy_points_for := 100,
      fantasy_points_against := 50 },
    { roster_id := 2, wins := 6, losses := 6, fantasy_points_for := 90,
      fantasy_points_against := 60 },
    { roster_id := 3, wins := 4, losses := 8, fantasy_points_for := 80,
      fantasy_points_against := 70 },
    { roster_id := 4, wins := 2, losses := 10, fantasy_points_for := 70,
      fantasy_points_against := 80 } ]

/-- Concrete matchups for the pruning counterexample: in week 13 team 1
plays team 2 and team 3 plays team 4. -/
def c1matchups : List Matchup :=
  [ { matchup_period := 13, matchup_id := 1, roster_id := 1, opponent_roster_id := 2 },
    { matchup_period := 13, matchup_id := 2, roster_id := 3, opponent_roster_id := 4 } ]

/-- Outcome matrix for the pruning counterexample (13 zeroed columns per
team; only the week-13 column is read or written by the run). -/
def c1mat : List (List ℕ) := List.replicate 4 (List.replicate 13 0)

/-- Concrete league for the spec's boundary scenario: 4 teams, 2 playoff
spots, one remaining week (week 9). -/
def c2league : League :=
  { current_week := 9, last_week_of_regular_season := 9, playoff_week_start := 10,
    number_of_teams := 4, number_of_playoff_teams := 2 }

/-- Concrete teams for the spec's boundary scenario: A=5-3, B=5-3, C=4-4,
D=3-5. -/
def c2teams : List Team :=
  [ { roster_id := 1, wins := 5, losses := 3, fantasy_points_for := 100,
      fantasy_points_against := 50 },
    { roster_id := 2, wins := 5, losses := 3, fantasy_points_for := 90,
      fantasy_points_against := 60 },
    { roster_id := 3, wins := 4, losses := 4, fantasy_points_for := 80,
      fantasy_points_against := 70 },
    { roster_id := 4, wins := 3, losses := 5, fantasy_points_for := 70,
      fantasy_points_against := 80 } ]

/-- Concrete matchups for the spec's boundary scenario: A vs B and C vs D in
week 9. -/
def c2matchups : List Matchup :=
  [ { matchup_period := 9, matchup_id := 1, roster_id := 1, opponent_roster_id := 2 },
    { matchup_period := 9, matchup_id := 2, roster_id := 3, opponent_roster_id := 4 } ]

/-- Outcome-matrix row seeded the way `main` seeds it (source lines
452-455): one `1` per base win in the leading columns. -/
def seedRow (wins : ℕ) : List ℕ :=
  (List.range 9).map (fun i => if i < wins then 1 else 0)

/-- Outcome matrix for the spec's boundary scenario, seeded from the base
records as `main` does. -/
def c2mat : List (List ℕ) := [seedRow 5, seedRow 5, seedRow 4, seedRow 3]

/-- Concrete league with a bye week for the scenario-count counterexample:
4 teams but only one matchup in the single remaining week. -/
def c5league : League :=
  { current_week := 1, last_week_of_regular_season := 1, playoff_week_start := 2,
    number_of_teams := 4, number_of_playoff_teams := 2 }

/-- Concrete matchup list for the scenario-count counterexample: a single
remaining matchup (teams 3 and 4 are on bye). -/
def c5matchups : List Matchup :=
  [ { matchup_period := 1, matchup_id := 1, roster_id := 1, opponent_roster_id := 2 } ]

/-- Concrete league with two full remaining weeks, witnessing the amended
scenario-count statement. -/
def c5wleague : League :=
  { current_week := 1, last_week_of_regular_season := 2, playoff_week_start := 3,
    number_of_teams := 4, number_of_playoff_teams := 2 }

/-- Concrete matchup list with `number_of_teams / 2 = 2` matchups in each of
the two remaining weeks. -/
def c5wmatchups : List Matchup :=
  [ { matchup_period := 1, matchup_id := 1, roster_id := 1, opponent_roster_id := 2 },
    { matchup_period := 1, matchup_id := 2, roster_id := 3, opponent_roster_id := 4 },
    { matchup_period := 2, matchup_id := 1, roster_id := 1, opponent_roster_id := 3 },
    { matchup_period := 2, matchup_id := 2, roster_id := 2, opponent_roster_id := 4 } ]

/-- Concrete league with 2 teams and 1 playoff spot used to instantiate the
Cutoff Evaluator characterisation. -/
def c3league : League :=
  { current_week := 1, last_week_of_regular_season := 1, playoff_week_start := 2,
    number_of_teams := 2, number_of_playoff_teams := 1 }

/-- Concrete league for the no-reset counterexample: 2 teams, 1 playoff
spot, one remaining week. -/
def c7league : League :=
  { current_week := 1, last_week_of_regular_season := 1, playoff_week_start := 2,
    number_of_teams := 2, number_of_playoff_teams := 1 }

/-- Concrete teams for the no-reset counterexample; the first team starts
with a stale `playoff_scenarios = 5` from a previous run. -/
def c7teams : List Team :=
  [ { roster_id := 1, wins := 0, losses := 0, fantasy_points_for := 10,
      fantasy_points_against := 5, playoff_scenarios := 5 },
    { roster_id := 2, wins := 0, losses := 0, fantasy_points_for := 8,
      fantasy_points_against := 6 } ]

/-- Concrete matchup list for the no-reset counterexample. -/
def c7matchups : List Matchup :=
  [ { matchup_period := 1, matchup_id := 1, roster_id := 1, opponent_roster_id := 2 } ]

/-- Outcome matrix for the no-reset counterexample. -/
def c7mat : List (List ℕ) := [[0], [0]]

/-- Concrete league whose playoff-spot count (3) exceeds its team count (2),
for the degenerate-configuration claim. -/
def c6league : League :=
  { current_week := 1, last_week_of_regular_season := 1, playoff_week_start := 2,
    number_of_teams := 2, number_of_playoff_teams := 3 }

/-- Concrete two-team list for the degenerate-configuration claim. -/
def c6teams : List Team :=
  [ { roster_id := 1, wins := 1, losses := 0, fantasy_points_for := 10,
      fantasy_points_against := 5, playoff_scenarios := 7, guaranteed_playoff_scenarios := 4 },
    { roster_id := 2, wins := 0, losses := 1, fantasy_points_for := 8,
      fantasy_points_against := 6 } ]

/-- Outcome matrix for the degenerate-configuration claim. -/
def c6mat : List (List ℕ) := [[1], [0]]

/-! ## Basic lemmas about `listModify` -/

theorem length_listModify {α : Type} (f : α → α) (n : ℕ) (l : List α) :
    (listModify f n l).length = l.length := by
  induction l generalizing n with
  | nil => cases n <;> rfl
  | cons a l ih =>
    cases n with
    | zero => rfl
    | succ m => simpa [listModify] using ih m

theorem listModify_of_length_le {α : Type} (f : α → α) {n : ℕ} {l : List α}
    (h : l.length ≤ n) : listModify f n l = l := by
  induction l generalizing n with
  | nil => cases n <;> rfl
  | cons a l ih =>
    cases n with
    | zero => simp at h
    | succ m =>
      simp only [List.length_cons, Nat.succ_le_succ_iff] at h
      simp [listModify, ih h]

theorem getD_listModify_self {α : Type} (f : α → α) {n : ℕ} {l : List α} (d : α)
    (h : n < l.length) : (listModify f n l).getD n d = f (l.getD n d) := by
  induction l generalizing n with
  | nil => simp at h
  | cons a l ih =>
    cases n with
    | zero => simp [listModify]
    | succ m =>
      simp only [List.length_cons, Nat.succ_lt_succ_iff] at h
      simpa [listModify] using ih h

theorem getD_listModify_ne {α : Type} (f : α → α) {i j : ℕ} (l : List α) (d : α)
    (h : i ≠ j) : (listModify f i l).getD j d = l.getD j d := by
  induction l generalizing i j with
  | nil => cases i <;> rfl
  | cons a l ih =>
    cases i with
    | zero =>
      cases j with
      | zero => exact absurd rfl h
      | succ jm => simp [listModify]
    | succ im =>
      cases j with
      | zero => simp [listModify]
      | succ jm =>
        simp only [listModify, List.getD_cons_succ]
        exact ih (fun hc => h (by omega))

/-! ## Claim C1: the pruning filter is not result-preserving -/

/-- Claim C1 (code bug witness): on a concrete 4-team league (base wins 12,
6, 4, 2; two week-13 matchups; 2 playoff spots) the exact enumeration with
the pruning filter enabled (the source behaviour) skips all four complete
scenarios and leaves every counter at zero, while the same enumeration with
the filter removed counts them (team 1 qualifies in all 4 scenarios and is
strictly above the cutoff in all 4; team 2 qualifies in all 4).  The
spec's pruning-equivalence property fails on the code. -/
theorem pruning_filter_changes_results :
    (((ProcessWeeklyMatchups c1teams c1matchups c1league c1mat).1).map
        (fun t => (t.playoff_scenarios, t.guaranteed_playoff_scenarios))
      = [(0, 0), (0, 0), (0, 0), (0, 0)]) ∧
    (((ProcessWeeklyMatchupsAux false c1league c1matchups 0 13 c1teams c1mat).1).map
        (fun t => (t.playoff_scenarios, t.guaranteed_playoff_scenarios))
      = [(4, 4), (4, 0), (0, 0), (0, 0)]) := by
  constructor <;> decide

/-! ## Claim C2: the spec's boundary scenario -/

/-- Claim C2 (counterexample): on the spec's concrete boundary scenario the
code does not produce qualifying counts A=3, B=3, C=2, D=0 — teams A and B
qualify in all four scenarios, not three. -/
theorem boundary_scenario_claimed_counts_wrong :
    ((ProcessWeeklyMatchups c2teams c2matchups c2league c2mat).1).map
      (·.playoff_scenarios) ≠ [3, 3, 2, 0] := by
  decide

/-- Claim C2 (amended): on the spec's concrete boundary scenario the exact
enumeration produces qualifying counts A=4, B=4, C=2, D=0 and guaranteed
counts A=2, B=2, C=0, D=0 (probabilities A 100 percent / 50 percent,
B 100 percent / 50 percent, C 50 percent / 0, D 0). -/
theorem boundary_scenario_actual_counts :
    ((ProcessWeeklyMatchups c2teams c2matchups c2league c2mat).1).map
      (fun t => (t.playoff_scenarios, t.guaranteed_playoff_scenarios))
      = [(4, 2), (4, 2), (2, 0), (0, 0)] := by
  decide

/-! ## Claim C4: the parallel Monte Carlo draw count -/

/-- Claim C4 (code bug witness): with 10 requested simulations and 3 CPUs,
`parallel_monte_carlo_simulation` runs `min(3,8) = 3` workers of
`10 // 3 = 3` draws each, i.e. 9 draws in total, not the requested 10 that
`main` then uses as the probability denominator. -/
theorem parallel_draw_count_loses_remainder :
    parallelTotalDraws 10 3 = 9 ∧ parallelTotalDraws 10 3 ≠ 10 := by
  decide

/-! ## Claim C5: the scenario count used for mode selection -/

/-- Claim C5 (counterexample): for a 4-team league with a single remaining
matchup (two teams on bye), the scenario count `main` computes is
`2 ^ (4/2 * 1) = 4`, not `2 ^ 1 = 2` as the claim's
"2 to the total number of remaining matchups" requires. -/
theorem scenarios_count_ignores_byes :
    scenariosMain c5league = 4 ∧
    (2 : ℕ) ^ totalRemainingMatchups c5league c5matchups = 2 ∧
    scenariosMain c5league ≠ 2 ^ totalRemainingMatchups c5league c5matchups := by
  refine ⟨by decide, by decide, by decide⟩

/-! ## Claim C6: playoff spots exceeding the team count -/

/-- Claim C6 (counterexample): with 3 playoff spots and only 2 teams the
Cutoff Evaluator does not signal a configuration error — it returns
normally with the team list unchanged (a silent no-op). -/
theorem determine_silently_skips_degenerate_config :
    DeterminePlayoffChances c6teams c6league c6mat = c6teams := by
  decide

/-- Claim C6 (amended): whenever the playoff-spot count exceeds the team
count, `DeterminePlayoffChances` performs no evaluation and increments no
counters; it simply returns its input unchanged (no error is signalled). -/
theorem determine_noop_when_spots_exceed_teams (teams : List Team) (league : League)
    (team_matrix : List (List ℕ))
    (h : teams.length < league.number_of_playoff_teams) :
    DeterminePlayoffChances teams league team_matrix = teams := by
  unfold DeterminePlayoffChances sortedTeamWins teamWinsPairs
  rw [if_neg]
  simp only [List.length_insertionSort, List.length_map, List.enum_length]
  omega

/-- Claim C6 (witness for the amended theorem): the degenerate 3-spot,
2-team configuration instantiates it. -/
theorem determine_noop_witness :
    c6teams.length < c6league.number_of_playoff_teams ∧
    DeterminePlayoffChances c6teams c6league c6mat = c6teams :=
  ⟨by decide, determine_noop_when_spots_exceed_teams c6teams c6league c6mat (by decide)⟩

/-- Claim C5 (amended): for leagues with an even team count (the only case
in which the float quantity `2 ** (number_of_teams / 2)` that `main`
computes is an integer and the model is exact), the scenario count `main`
computes equals `2 ^ (total remaining matchups)` exactly when every
remaining week schedules `number_of_teams / 2` matchups (no byes, no uneven
weeks); in general it is `2 ^ ((number_of_teams / 2) * (weeks remaining))`
and ignores the actual matchup list. -/
theorem scenarios_count_when_full_weeks (league : League) (matchups : List Matchup)
    (_heven : 2 ∣ league.number_of_teams)
    (h1 : 1 ≤ league.current_week)
    (h2 : league.current_week ≤ league.last_week_of_regular_season)
    (h3 : ∀ w, league.current_week ≤ w → w ≤ league.last_week_of_regular_season →
      weeklyMatchupCount matchups w = league.number_of_teams / 2) :
    scenariosMain league = 2 ^ totalRemainingMatchups league matchups := by
  have hn : league.last_week_of_regular_season + 1 - league.current_week
      = league.last_week_of_regular_season - (league.current_week - 1) := by omega
  have hmap : (List.range' league.current_week
        (league.last_week_of_regular_season + 1 - league.current_week)).map
        (weeklyMatchupCount matchups)
      = List.replicate (league.last_week_of_regular_season + 1 - league.current_week)
        (league.number_of_teams / 2) := by
    refine List.eq_replicate_iff.mpr ⟨by simp, ?_⟩
    intro b hb
    rcases List.mem_map.mp hb with ⟨w, hw, rfl⟩
    rcases List.mem_range'_1.mp hw with ⟨hw1, hw2⟩
    exact h3 w hw1 (by omega)
  unfold scenariosMain totalRemainingMatchups totalMatchupsFrom
  rw [hmap, List.sum_replicate, smul_eq_mul, hn, ← pow_mul, Nat.mul_comm]

/-- Claim C5 (witness for the amended theorem): a 4-team league (even team
count, so the model of `main`'s float formula is exact) with two full
remaining weeks has `scenariosMain = 16 = 2 ^ 4` remaining-matchup
scenarios. -/
theorem scenarios_count_witness :
    scenariosMain c5wleague = 2 ^ totalRemainingMatchups c5wleague c5wmatchups :=
  scenarios_count_when_full_weeks c5wleague c5wmatchups (by decide) (by decide) (by decide)
    (by
      intro w hw1 hw2
      have h1 : 1 ≤ w := hw1
      have h2 : w ≤ 2 := hw2
      interval_cases w <;> decide)

/-! ## Lemmas about the Cutoff Evaluator's update fold -/

theorem length_determineStep (c : ℕ) (ts : List Team) (p : ℕ × ℕ) :
    (determineStep c ts p).length = ts.length := by
  unfold determineStep
  dsimp only
  split <;> split <;> simp [length_listModify]

theorem length_foldl_determineStep (c : ℕ) (L : List (ℕ × ℕ)) (ts : List Team) :
    (L.foldl (determineStep c) ts).length = ts.length := by
  induction L generalizing ts with
  | nil => rfl
  | cons p L ih => simpa [List.foldl_cons, length_determineStep] using
      (ih (determineStep c ts p)).trans (length_determineStep c ts p)

theorem getD_determineStep_ne (c : ℕ) (ts : List Team) {p : ℕ × ℕ} {j : ℕ}
    (h : p.1 ≠ j) : (determineStep c ts p).getD j default = ts.getD j default := by
  unfold determineStep
  dsimp only
  split <;> split <;> simp only [getD_listModify_ne _ _ _ h]

theorem getD_foldl_determineStep_not_mem (c : ℕ) (L : List (ℕ × ℕ)) (ts : List Team)
    {j : ℕ} (h : ∀ p ∈ L, p.1 ≠ j) :
    (L.foldl (determineStep c) ts).getD j default = ts.getD j default := by
  induction L generalizing ts with
  | nil => rfl
  | cons p L ih =>
    rw [List.foldl_cons, ih _ (fun q hq => h q (List.mem_cons_of_mem p hq)),
      getD_determineStep_ne c ts (h p (List.mem_cons_self p L))]

theorem getD_determineStep_self (c : ℕ) (ts : List Team) (p : ℕ × ℕ)
    (h : p.1 < ts.length) :
    (determineStep c ts p).getD p.1 default = applyInc c p.2 (ts.getD p.1 default) := by
  unfold determineStep applyInc
  dsimp only
  have hlen : p.1 < (listModify
      (fun t => { t with playoff_scenarios := t.playoff_scenarios + 1 }) p.1 ts).length := by
    rw [length_listModify]
    exact h
  by_cases h1 : c ≤ p.2 <;> by_cases h2 : c < p.2
  · simp only [if_pos h1, if_pos h2]
    rw [getD_listModify_self _ _ hlen, getD_listModify_self _ _ h]
  · simp only [if_pos h1, if_neg h2]
    rw [getD_listModify_self _ _ h]
  · exact absurd (le_of_lt h2) h1
  · simp only [if_neg h1, if_neg h2]


theorem getD_foldl_determineStep_mem (c : ℕ) (L : List (ℕ × ℕ)) (ts : List Team)
    {j v : ℕ} (hnd : (L.map Prod.fst).Nodup) (hmem : (j, v) ∈ L) (hj : j < ts.length) :
    (L.foldl (determineStep c) ts).getD j default = applyInc c v (ts.getD j default) := by
  rcases List.append_of_mem hmem with ⟨L1, L2, rfl⟩
  rw [List.map_append, List.map_cons] at hnd
  have hnd2 := (List.nodup_middle.mp hnd)
  have hj1 : j ∉ L1.map Prod.fst := fun hc =>
    (List.nodup_cons.mp hnd2).1 (List.mem_append.mpr (Or.inl hc))
  have hj2 : j ∉ L2.map Prod.fst := fun hc =>
    (List.nodup_cons.mp hnd2).1 (List.mem_append.mpr (Or.inr hc))
  rw [List.foldl_append, List.foldl_cons]
  rw [getD_foldl_determineStep_not_mem c L2 _
    (fun p hp hc => hj2 (by
      have hpj : p.1 = j := hc
      rw [← hpj]
      exact List.mem_map_of_mem Prod.fst hp))]
  have hlen1 : (L1.foldl (determineStep c) ts).length = ts.length :=
    length_foldl_determineStep c L1 ts
  rw [getD_determineStep_self c _ (j, v) (by omega)]
  rw [getD_foldl_determineStep_not_mem c L1 ts
    (fun p hp hc => hj1 (by
      have hpj : p.1 = j := hc
      rw [← hpj]
      exact List.mem_map_of_mem Prod.fst hp))]

/-- First components of an enum-derived pair list are exactly `range`. -/
theorem map_fst_map_enum {α β : Type} (l : List α) (g : ℕ × α → β) :
    ((l.enum.map (fun p => (p.1, g p))).map Prod.fst) = List.range l.length := by
  rw [List.map_map]
  exact List.enum_map_fst l

/-- Membership of the canonical pair for index `j` in an enum-derived pair
list. -/
theorem mem_map_enum_of_lt {α β : Type} [Inhabited α] (l : List α) (g : ℕ × α → β)
    {j : ℕ} (hj : j < l.length) :
    (j, g (j, l.getD j default)) ∈ l.enum.map (fun p => (p.1, g p)) := by
  have hj' : j < l.enum.length := by simpa [List.enum_length] using hj
  have hmem : (j, l.getD j default) ∈ l.enum := by
    have := List.getElem_enum l j hj'
    rw [List.getD_eq_getElem l default hj]
    exact this ▸ List.getElem_mem hj'
  exact List.mem_map_of_mem (fun p => (p.1, g p)) hmem

/-! ## Claim C3: the Cutoff Evaluator -/

theorem length_sortedTeamWins (teams : List Team) (league : League)
    (team_matrix : List (List ℕ)) :
    (sortedTeamWins teams league team_matrix).length = teams.length := by
  simp [sortedTeamWins, teamWinsPairs, List.enum_length]

theorem map_fst_sortedTeamWins_perm (teams : List Team) (league : League)
    (team_matrix : List (List ℕ)) :
    ((sortedTeamWins teams league team_matrix).map Prod.fst).Perm
      (List.range teams.length) := by
  have h := (List.perm_insertionSort (fun a b : ℕ × ℕ => b.2 ≤ a.2)
    (teamWinsPairs teams league team_matrix)).map Prod.fst
  unfold teamWinsPairs at h
  rw [map_fst_map_enum] at h
  exact h

theorem nodup_map_fst_sortedTeamWins (teams : List Team) (league : League)
    (team_matrix : List (List ℕ)) :
    ((sortedTeamWins teams league team_matrix).map Prod.fst).Nodup :=
  ((map_fst_sortedTeamWins_perm teams league team_matrix).nodup_iff).mpr
    (List.nodup_range teams.length)

theorem mem_sortedTeamWins (teams : List Team) (league : League)
    (team_matrix : List (List ℕ)) {j : ℕ} (hj : j < teams.length) :
    (j, teamTotalWins league team_matrix j (teams.getD j default)) ∈
      sortedTeamWins teams league team_matrix := by
  unfold sortedTeamWins
  rw [List.mem_insertionSort]
  unfold teamWinsPairs
  exact mem_map_enum_of_lt teams _ hj

theorem map_snd_teamWinsPairs (teams : List Team) (league : League)
    (team_matrix : List (List ℕ)) :
    (teamWinsPairs teams league team_matrix).map Prod.snd =
      totalWinsList teams league team_matrix := by
  unfold teamWinsPairs totalWinsList
  rw [List.map_map]
  rfl

theorem map_snd_sortedTeamWins (teams : List Team) (league : League)
    (team_matrix : List (List ℕ)) :
    (sortedTeamWins teams league team_matrix).map Prod.snd =
      descendingSorted (totalWinsList teams league team_matrix) := by
  haveI i1 : IsTotal (ℕ × ℕ) (fun a b => b.2 ≤ a.2) := ⟨fun a b => (le_total a.2 b.2).symm⟩
  haveI i2 : IsTrans (ℕ × ℕ) (fun a b => b.2 ≤ a.2) := ⟨fun a b c hab hbc => le_trans hbc hab⟩
  haveI i3 : IsTotal ℕ (fun a b => b ≤ a) := ⟨fun a b => (le_total a b).symm⟩
  haveI i4 : IsTrans ℕ (fun a b => b ≤ a) := ⟨fun a b c hab hbc => le_trans hbc hab⟩
  haveI i5 : IsAntisymm ℕ (fun a b => b ≤ a) := ⟨fun a b hab hba => le_antisymm hba hab⟩
  have hs1 : List.Sorted (fun a b : ℕ => b ≤ a)
      ((sortedTeamWins teams league team_matrix).map Prod.snd) := by
    refine List.pairwise_map.mpr ?_
    exact List.sorted_insertionSort (fun a b : ℕ × ℕ => b.2 ≤ a.2)
      (teamWinsPairs teams league team_matrix)
  have hs2 : List.Sorted (fun a b : ℕ => b ≤ a)
      (descendingSorted (totalWinsList teams league team_matrix)) :=
    List.sorted_insertionSort (fun a b : ℕ => b ≤ a)
      (totalWinsList teams league team_matrix)
  have hperm : ((sortedTeamWins teams league team_matrix).map Prod.snd).Perm
      (descendingSorted (totalWinsList teams league team_matrix)) := by
    have hp1 := (List.perm_insertionSort (fun a b : ℕ × ℕ => b.2 ≤ a.2)
      (teamWinsPairs teams league team_matrix)).map Prod.snd
    rw [map_snd_teamWinsPairs] at hp1
    exact hp1.trans (List.perm_insertionSort (fun a b : ℕ => b ≤ a)
      (totalWinsList teams league team_matrix)).symm
  exact List.eq_of_perm_of_sorted hperm hs1 hs2

theorem code_cutoff_eq_cutoffValue (teams : List Team) (league : League)
    (team_matrix : List (List ℕ))
    (h1 : 1 ≤ league.number_of_playoff_teams)
    (h2 : league.number_of_playoff_teams ≤ teams.length) :
    ((sortedTeamWins teams league team_matrix).getD
        (league.number_of_playoff_teams - 1) (0, 0)).2 =
      cutoffValue teams league team_matrix := by
  have hk : league.number_of_playoff_teams - 1 <
      (sortedTeamWins teams league team_matrix).length := by
    rw [length_sortedTeamWins]
    omega
  have hk2 : league.number_of_playoff_teams - 1 <
      ((sortedTeamWins teams league team_matrix).map Prod.snd).length := by
    simpa using hk
  have hgd : ((sortedTeamWins teams league team_matrix).getD
        (league.number_of_playoff_teams - 1) (0, 0)).2 =
      ((sortedTeamWins teams league team_matrix).map Prod.snd).getD
        (league.number_of_playoff_teams - 1) 0 := by
    rw [List.getD_eq_getElem _ _ hk, List.getD_eq_getElem _ _ hk2, List.getElem_map]
  rw [hgd, map_snd_sortedTeamWins]
  rfl

/-- Claim C3: for every complete scenario with `1 ≤ playoff_spots ≤ team
count`, the Cutoff Evaluator behaves exactly as specified: the cutoff is the
total-wins value at 1-based position `playoff_spots` of the
descending-by-total-wins order, and each team's counters are incremented
according to `total_wins ≥ cutoff` (qualifying) and `total_wins > cutoff`
(guaranteed), where total wins are base wins plus the team's outcome-matrix
bits from the current week on. -/
theorem determine_is_cutoff_evaluator (teams : List Team) (league : League)
    (team_matrix : List (List ℕ))
    (h1 : 1 ≤ league.number_of_playoff_teams)
    (h2 : league.number_of_playoff_teams ≤ teams.length) :
    DeterminePlayoffChances teams league team_matrix =
      teams.enum.map (fun p => applyInc (cutoffValue teams league team_matrix)
        (teamTotalWins league team_matrix p.1 p.2) p.2) := by
  have hguard : league.number_of_playoff_teams ≤
      (sortedTeamWins teams league team_matrix).length := by
    rw [length_sortedTeamWins]
    exact h2
  have hne : ¬ (league.number_of_playoff_teams = 0) := by omega
  have hD : DeterminePlayoffChances teams league team_matrix =
      (sortedTeamWins teams league team_matrix).foldl
        (determineStep (cutoffValue teams league team_matrix)) teams := by
    unfold DeterminePlayoffChances
    dsimp only
    rw [if_pos hguard, if_neg hne, code_cutoff_eq_cutoffValue teams league team_matrix h1 h2]
  rw [hD]
  apply List.ext_getElem
  · rw [length_foldl_determineStep]
    simp [List.enum_length]
  · intro n hn1 hn2
    have hn : n < teams.length := by
      rwa [length_foldl_determineStep] at hn1
    rw [← List.getD_eq_getElem _ default hn1]
    rw [getD_foldl_determineStep_mem _ _ _
      (nodup_map_fst_sortedTeamWins teams league team_matrix)
      (mem_sortedTeamWins teams league team_matrix hn) hn]
    rw [List.getD_eq_getElem _ _ hn]
    rw [List.getElem_map, List.getElem_enum]

/-- Claim C3 (witness): the characterisation instantiated on a concrete
2-team league with 1 playoff spot. -/
theorem determine_cutoff_witness :
    DeterminePlayoffChances c6teams c3league c6mat =
      [ { roster_id := 1, wins := 1, losses := 0, fantasy_points_for := 10,
          fantasy_points_against := 5, playoff_scenarios := 8,
          guaranteed_playoff_scenarios := 4 },
        { roster_id := 2, wins := 0, losses := 1, fantasy_points_for := 8,
          fantasy_points_against := 6 } ] :=
  (determine_is_cutoff_evaluator c6teams c3league c6mat (by decide) (by decide)).trans
    (by decide)

/-! ## Counter monotonicity machinery -/

theorem countersMono_refl (ts : List Team) : CountersMono ts ts :=
  ⟨rfl, fun _ => ⟨le_refl _, le_refl _, le_refl _⟩⟩

theorem countersMono_trans {ts1 ts2 ts3 : List Team} (h1 : CountersMono ts1 ts2)
    (h2 : CountersMono ts2 ts3) : CountersMono ts1 ts3 := by
  refine ⟨h2.1.trans h1.1, fun j => ?_⟩
  obtain ⟨a1, b1, c1⟩ := h1.2 j
  obtain ⟨a2, b2, c2⟩ := h2.2 j
  exact ⟨a1.trans a2, b1.trans b2, by omega⟩

theorem countersAdd_refl (c : ℕ) (ts : List Team) : CountersAdd c ts ts :=
  ⟨countersMono_refl ts, fun _ => Nat.le_add_right _ _⟩

theorem countersAdd_mono {c c' : ℕ} {ts ts' : List Team} (h : c ≤ c')
    (ha : CountersAdd c ts ts') : CountersAdd c' ts ts' :=
  ⟨ha.1, fun j => (ha.2 j).trans (by omega)⟩

theorem countersAdd_trans {c1 c2 : ℕ} {ts1 ts2 ts3 : List Team}
    (h1 : CountersAdd c1 ts1 ts2) (h2 : CountersAdd c2 ts2 ts3) :
    CountersAdd (c1 + c2) ts1 ts3 := by
  refine ⟨countersMono_trans h1.1 h2.1, fun j => ?_⟩
  have := h1.2 j
  have := h2.2 j
  omega

theorem countersAdd_of_mono {ts ts' : List Team} (c : ℕ) (h : CountersMono ts ts')
    (hb : ∀ j : ℕ, (ts'.getD j default).playoff_scenarios ≤
      (ts.getD j default).playoff_scenarios + c) : CountersAdd c ts ts' :=
  ⟨h, hb⟩

theorem applyInc_counter_facts (c v : ℕ) (t : Team) :
    t.playoff_scenarios ≤ (applyInc c v t).playoff_scenarios ∧
    (applyInc c v t).playoff_scenarios ≤ t.playoff_scenarios + 1 ∧
    t.guaranteed_playoff_scenarios ≤ (applyInc c v t).guaranteed_playoff_scenarios ∧
    (applyInc c v t).guaranteed_playoff_scenarios + t.playoff_scenarios ≤
      t.guaranteed_playoff_scenarios + (applyInc c v t).playoff_scenarios := by
  unfold applyInc
  dsimp only
  by_cases h1 : c ≤ v <;> by_cases h2 : c < v <;>
    simp only [if_pos, if_neg, h1, h2] <;> simp <;> omega

theorem foldl_determineStep_countersAdd (c : ℕ) (L : List (ℕ × ℕ)) (ts : List Team)
    (hnd : (L.map Prod.fst).Nodup) :
    CountersAdd 1 ts (L.foldl (determineStep c) ts) := by
  have hlen : (L.foldl (determineStep c) ts).length = ts.length :=
    length_foldl_determineStep c L ts
  have hchar : ∀ j : ℕ, (L.foldl (determineStep c) ts).getD j default = ts.getD j default ∨
      ∃ v, (L.foldl (determineStep c) ts).getD j default =
        applyInc c v (ts.getD j default) := by
    intro j
    by_cases hj : j < ts.length
    · by_cases hmem : j ∈ L.map Prod.fst
      · rcases List.mem_map.mp hmem with ⟨p, hp, hpj⟩
        right
        refine ⟨p.2, ?_⟩
        have : (p.1, p.2) ∈ L := by simpa using hp
        rw [← hpj]
        exact getD_foldl_determineStep_mem c L ts hnd this (hpj ▸ hj)
      · left
        exact getD_foldl_determineStep_not_mem c L ts
          (fun p hp hc => hmem (hc ▸ List.mem_map_of_mem Prod.fst hp))
    · left
      rw [List.getD_eq_default _ _ (by omega), List.getD_eq_default _ _ (by omega)]
  refine ⟨⟨hlen, fun j => ?_⟩, fun j => ?_⟩
  · rcases hchar j with h | ⟨v, h⟩
    · rw [h]
      exact ⟨le_refl _, le_refl _, le_refl _⟩
    · rw [h]
      have := applyInc_counter_facts c v (ts.getD j default)
      exact ⟨this.1, this.2.2.1, this.2.2.2⟩
  · rcases hchar j with h | ⟨v, h⟩
    · rw [h]
      omega
    · rw [h]
      exact (applyInc_counter_facts c v (ts.getD j default)).2.1

theorem determine_countersAdd (teams : List Team) (league : League)
    (team_matrix : List (List ℕ)) :
    CountersAdd 1 teams (DeterminePlayoffChances teams league team_matrix) := by
  unfold DeterminePlayoffChances
  dsimp only
  split
  · exact foldl_determineStep_countersAdd _ _ teams
      (nodup_map_fst_sortedTeamWins teams league team_matrix)
  · exact countersAdd_refl 1 teams

theorem countersMono_foldl_pairs {β M : Type} (step : (List Team × M) → β → (List Team × M))
    (L : List β) (st : List Team × M)
    (h : ∀ st' b, b ∈ L → CountersMono st'.1 (step st' b).1) :
    CountersMono st.1 (L.foldl step st).1 := by
  induction L generalizing st with
  | nil => exact countersMono_refl st.1
  | cons b L ih =>
    rw [List.foldl_cons]
    exact countersMono_trans (h st b (List.mem_cons_self b L))
      (ih (step st b) (fun st' b' hb' => h st' b' (List.mem_cons_of_mem _ hb')))

theorem countersAdd_foldl_pairs {β M : Type} (B : ℕ)
    (step : (List Team × M) → β → (List Team × M)) (L : List β) (st : List Team × M)
    (h : ∀ st' b, b ∈ L → CountersAdd B st'.1 (step st' b).1) :
    CountersAdd (L.length * B) st.1 (L.foldl step st).1 := by
  induction L generalizing st with
  | nil => simpa using countersAdd_refl 0 st.1
  | cons b L ih =>
    rw [List.foldl_cons, List.length_cons]
    have heq : (L.length + 1) * B = B + L.length * B := by ring
    rw [heq]
    exact countersAdd_trans (h st b (List.mem_cons_self b L))
      (ih (step st b) (fun st' b' hb' => h st' b' (List.mem_cons_of_mem _ hb')))

theorem pwm_aux_countersMono (pruning : Bool) (league : League) (matchups : List Matchup) :
    ∀ fuel matchupPeriod teams mat,
      CountersMono teams
        ((ProcessWeeklyMatchupsAux pruning league matchups fuel matchupPeriod teams mat).1) := by
  intro fuel
  induction fuel with
  | zero =>
    intro period teams mat
    unfold ProcessWeeklyMatchupsAux weeklyFold
    apply countersMono_foldl_pairs
    intro st b _
    dsimp only
    split
    · exact countersMono_refl st.1
    · split
      · exact (determine_countersAdd st.1 league _).1
      · exact countersMono_refl st.1
  | succ fuel ih =>
    intro period teams mat
    unfold ProcessWeeklyMatchupsAux weeklyFold
    apply countersMono_foldl_pairs
    intro st b _
    dsimp only
    split
    · exact countersMono_refl st.1
    · split
      · exact (determine_countersAdd st.1 league _).1
      · exact ih (period + 1) st.1 _

theorem resetCounters_idem (ts : List Team) :
    resetCounters (resetCounters ts) = resetCounters ts := by
  unfold resetCounters
  rw [List.map_map]
  congr 1

theorem length_resetCounters (ts : List Team) : (resetCounters ts).length = ts.length := by
  simp [resetCounters]

theorem map_data_resetCounters (ts : List Team) :
    (resetCounters ts).map (fun t => (t.wins, t.fantasy_points_for)) =
      ts.map (fun t => (t.wins, t.fantasy_points_for)) := by
  unfold resetCounters
  rw [List.map_map]
  congr 1

theorem incTeamAt_countersMono (cw : ℕ) (w : List ℕ) (idx : ℕ) (ts : List Team) :
    CountersMono ts (incTeamAt cw w idx ts) := by
  constructor
  · unfold incTeamAt
    dsimp only
    split <;> simp [length_listModify]
  · intro j
    by_cases hij : idx = j
    · subst hij
      by_cases hlt : idx < ts.length
      · have hlt1 : idx < (listModify
            (fun t => { t with playoff_scenarios := t.playoff_scenarios + 1 })
            idx ts).length := by
          rw [length_listModify]
          exact hlt
        unfold incTeamAt
        dsimp only
        split
        · rw [getD_listModify_self _ _ hlt1, getD_listModify_self _ _ hlt]
          dsimp only
          omega
        · rw [getD_listModify_self _ _ hlt]
          dsimp only
          omega
      · have hle : ts.length ≤ idx := by omega
        unfold incTeamAt
        dsimp only
        rw [listModify_of_length_le _ hle, listModify_of_length_le _ hle]
        split <;> exact ⟨le_refl _, le_refl _, le_refl _⟩
    · unfold incTeamAt
      dsimp only
      split
      · rw [getD_listModify_ne _ _ _ hij, getD_listModify_ne _ _ _ hij]
        exact ⟨le_refl _, le_refl _, le_refl _⟩
      · rw [getD_listModify_ne _ _ _ hij]
        exact ⟨le_refl _, le_refl _, le_refl _⟩

theorem countersMono_foldl {β : Type} (step : List Team → β → List Team) (L : List β)
    (ts : List Team) (h : ∀ ts' b, b ∈ L → CountersMono ts' (step ts' b)) :
    CountersMono ts (L.foldl step ts) := by
  induction L generalizing ts with
  | nil => exact countersMono_refl ts
  | cons b L ih =>
    rw [List.foldl_cons]
    exact countersMono_trans (h ts b (List.mem_cons_self b L))
      (ih (step ts b) (fun ts' b' hb' => h ts' b' (List.mem_cons_of_mem _ hb')))

theorem mcCountDraw_countersMono (teams : List Team) (league : League) (sim_wins : List ℕ) :
    CountersMono teams (mcCountDraw teams league sim_wins) := by
  unfold mcCountDraw
  dsimp only
  apply countersMono_foldl
  intro ts' b _
  exact incTeamAt_countersMono _ _ _ ts'

/-! ## Claim C7: counter reset and monotonicity -/

/-- Claim C7 (counterexample): `ProcessWeeklyMatchups` does not reset
counters at the start of a run — a stale `playoff_scenarios = 5` on team 1
survives into the final count (6 instead of the from-zero value 1), so the
result depends on the counters' prior values. -/
theorem exact_run_keeps_stale_counters :
    (((ProcessWeeklyMatchups c7teams c7matchups c7league c7mat).1).map
      (·.playoff_scenarios) = [6, 1]) ∧
    (((ProcessWeeklyMatchups (resetCounters c7teams) c7matchups c7league c7mat).1).map
      (·.playoff_scenarios) = [1, 1]) ∧
    ([6, 1] ≠ ([1, 1] : List ℕ)) := by
  refine ⟨by decide, by decide, by decide⟩

/-- Claim C7 (amended): both Monte Carlo engines reset the scenario counters
at the start of a run (their results are independent of the counters' prior
values), and all engines only ever increment counters: the exact engine and
each Monte Carlo draw are monotone, with the guaranteed counter never
growing faster than the qualifying counter.  The exact engine, however,
performs no reset: its counters continue from their prior values (see the
counterexample). -/
theorem counters_reset_and_monotonicity :
    (∀ (N : ℕ) (teams : List Team) (matchups : List Matchup) (league : League)
        (tape : ℕ → ℕ → Bool),
      MonteCarloSimulation N teams matchups league tape =
        MonteCarloSimulation N (resetCounters teams) matchups league tape) ∧
    (∀ (N : ℕ) (teams : List Team) (matchups : List Matchup) (league : League)
        (cpu_count : ℕ) (tape : ℕ → ℕ → ℕ → Bool),
      parallel_monte_carlo_simulation N teams matchups league cpu_count tape =
        parallel_monte_carlo_simulation N (resetCounters teams) matchups league cpu_count tape) ∧
    (∀ (teams : List Team) (matchups : List Matchup) (league : League)
        (mat : List (List ℕ)),
      CountersMono teams ((ProcessWeeklyMatchups teams matchups league mat).1)) ∧
    (∀ (teams : List Team) (league : League) (sim_wins : List ℕ),
      CountersMono teams (mcCountDraw teams league sim_wins)) := by
  refine ⟨?_, ?_, ?_, ?_⟩
  · intro N teams matchups league tape
    unfold MonteCarloSimulation
    rw [resetCounters_idem]
  · intro N teams matchups league cpu tape
    unfold parallel_monte_carlo_simulation
    dsimp only
    rw [resetCounters_idem, map_data_resetCounters, length_resetCounters]
  · intro teams matchups league mat
    exact pwm_aux_countersMono true league matchups _ _ teams mat
  · intro teams league sim_wins
    exact mcCountDraw_countersMono teams league sim_wins

/-! ## Stability of insertion sort

Python's `list.sort` is stable; `insertionSort (fun a b => k b ≤ k a)` is its
model.  The following lemmas make the stability usable: if the input list is
`Pairwise q` (for us: strictly increasing team indices), the sorted output is
pairwise "related by `r`, and on `r`-ties still related by `q`". -/

theorem pairwise_orderedInsert_stable {α : Type} {r q : α → α → Prop} [DecidableRel r]
    (htot : ∀ a b, r a b ∨ r b a) (htr : ∀ a b c, r a b → r b c → r a c) (x : α)
    (s : List α) (hs : s.Pairwise (fun a b => r a b ∧ (r b a → q a b)))
    (hq : ∀ b ∈ s, q x b) :
    (s.orderedInsert r x).Pairwise (fun a b => r a b ∧ (r b a → q a b)) := by
  induction s with
  | nil => simp
  | cons b t ih =>
    by_cases hrxb : r x b
    · rw [List.orderedInsert, if_pos hrxb]
      refine List.pairwise_cons.mpr ⟨?_, hs⟩
      intro c hc
      rcases List.mem_cons.mp hc with rfl | hct
      · exact ⟨hrxb, fun _ => hq c (List.mem_cons_self c t)⟩
      · refine ⟨?_, fun _ => hq c (List.mem_cons_of_mem b hct)⟩
        exact htr x b c hrxb ((List.pairwise_cons.mp hs).1 c hct).1
    · rw [List.orderedInsert, if_neg hrxb]
      refine List.pairwise_cons.mpr ⟨?_, ?_⟩
      · intro c hc
        rcases (List.mem_orderedInsert r).mp hc with hcx | hct
        · rw [hcx]
          exact ⟨(htot x b).resolve_left hrxb, fun hxb => absurd hxb hrxb⟩
        · exact (List.pairwise_cons.mp hs).1 c hct
      · exact ih (List.pairwise_cons.mp hs).2
          (fun c hct => hq c (List.mem_cons_of_mem b hct))

theorem pairwise_insertionSort_stable {α : Type} {r q : α → α → Prop} [DecidableRel r]
    (htot : ∀ a b, r a b ∨ r b a) (htr : ∀ a b c, r a b → r b c → r a c)
    (l : List α) (hl : l.Pairwise q) :
    (l.insertionSort r).Pairwise (fun a b => r a b ∧ (r b a → q a b)) := by
  induction l with
  | nil => simp
  | cons x t ih =>
    rw [List.insertionSort]
    refine pairwise_orderedInsert_stable htot htr x _ (ih (List.pairwise_cons.mp hl).2) ?_
    intro c hc
    exact (List.pairwise_cons.mp hl).1 c ((List.mem_insertionSort r).mp hc)

/-! ## Lemmas about the tie-grouping loop -/

theorem groupLoop_flatten (cw : ℕ) (cur : List (ℕ × ℕ)) (l : List (ℕ × ℕ)) :
    (groupLoop cw cur l).flatten = cur ++ l := by
  induction l generalizing cw cur with
  | nil => simp [groupLoop]
  | cons y ys ih =>
    unfold groupLoop
    split
    · rw [ih]
      simp
    · simp only [List.flatten_cons, ih]
      simp

theorem groupLoop_snd_eq (cw : ℕ) (cur : List (ℕ × ℕ)) (l : List (ℕ × ℕ))
    (hcur : ∀ a ∈ cur, a.2 = cw) :
    ∀ g ∈ groupLoop cw cur l, ∃ c, ∀ x ∈ g, x.2 = c := by
  induction l generalizing cw cur with
  | nil =>
    intro g hg
    rcases List.mem_singleton.mp hg with rfl
    exact ⟨cw, hcur⟩
  | cons y ys ih =>
    intro g hg
    unfold groupLoop at hg
    split at hg
    · refine ih cw (cur ++ [y]) ?_ g hg
      intro a ha
      rcases List.mem_append.mp ha with h1 | h2
      · exact hcur a h1
      · rcases List.mem_singleton.mp h2 with rfl
        assumption
    · rcases List.mem_cons.mp hg with rfl | hg2
      · exact ⟨cw, hcur⟩
      · refine ih y.2 [y] ?_ g hg2
        intro a ha
        rcases List.mem_singleton.mp ha with rfl
        rfl

theorem groupLoop_cross_wins (cw : ℕ) (cur : List (ℕ × ℕ)) (l : List (ℕ × ℕ))
    (hcur : ∀ a ∈ cur, a.2 = cw) (hne : cur ≠ [])
    (hsorted : (cur ++ l).Pairwise (fun a b : ℕ × ℕ => b.2 ≤ a.2)) :
    (groupLoop cw cur l).Pairwise (fun g1 g2 => ∀ x ∈ g1, ∀ y ∈ g2, y.2 < x.2) := by
  induction l generalizing cw cur with
  | nil => exact List.pairwise_singleton _ cur
  | cons y ys ih =>
    unfold groupLoop
    split
    · refine ih cw (cur ++ [y]) ?_ (by simp) (by simpa [List.append_assoc] using hsorted)
      intro a ha
      rcases List.mem_append.mp ha with h1 | h2
      · exact hcur a h1
      · rcases List.mem_singleton.mp h2 with rfl
        assumption
    · have hsplit := List.pairwise_append.mp hsorted
      refine List.pairwise_cons.mpr ⟨?_, ?_⟩
      · intro g hg x hx z hz
        have hzmem : z ∈ ([y] ++ ys : List (ℕ × ℕ)) := by
          have : z ∈ (groupLoop y.2 [y] ys).flatten := List.mem_flatten.mpr ⟨g, hg, hz⟩
          rwa [groupLoop_flatten] at this
        have hxcw : x.2 = cw := hcur x hx
        rcases List.exists_mem_of_ne_nil cur hne with ⟨a0, ha0⟩
        have hycw : y.2 ≤ cw := by
          have := hsplit.2.2 a0 ha0 y (List.mem_cons_self y ys)
          rw [hcur a0 ha0] at this
          exact this
        have hylt : y.2 < cw := lt_of_le_of_ne hycw (by assumption)
        have hzy : z.2 ≤ y.2 := by
          rcases List.mem_append.mp hzmem with h1 | h2
          · rcases List.mem_singleton.mp h1 with rfl
            exact le_refl _
          · exact (List.pairwise_cons.mp hsplit.2.1).1 z h2
        omega
      · refine ih y.2 [y] ?_ (by simp) ?_
        · intro a ha
          rcases List.mem_singleton.mp ha with rfl
          rfl
        · simpa using hsplit.2.1

theorem tiedGroups_flatten (l : List (ℕ × ℕ)) : (tiedGroups l).flatten = l := by
  cases l with
  | nil => rfl
  | cons x xs =>
    unfold tiedGroups
    rw [groupLoop_flatten]
    rfl

theorem tiedGroups_snd_eq (l : List (ℕ × ℕ)) :
    ∀ g ∈ tiedGroups l, ∃ c, ∀ x ∈ g, x.2 = c := by
  cases l with
  | nil => intro g hg; simp [tiedGroups] at hg
  | cons x xs =>
    unfold tiedGroups
    refine groupLoop_snd_eq x.2 [x] xs ?_
    intro a ha
    rcases List.mem_singleton.mp ha with rfl
    rfl

theorem tiedGroups_cross (l : List (ℕ × ℕ))
    (hl : l.Pairwise (fun a b : ℕ × ℕ => b.2 ≤ a.2)) :
    (tiedGroups l).Pairwise (fun g1 g2 => ∀ x ∈ g1, ∀ y ∈ g2, y.2 < x.2) := by
  cases l with
  | nil => simp [tiedGroups]
  | cons x xs =>
    unfold tiedGroups
    refine groupLoop_cross_wins x.2 [x] xs ?_ (by simp) (by simpa using hl)
    intro a ha
    rcases List.mem_singleton.mp ha with rfl
    rfl

/-! ## Ranking infrastructure shared by the Monte Carlo engines -/

theorem foldl_append_eq_flatten {α β : Type} (f : α → List β) (L : List α)
    (init : List β) :
    L.foldl (fun acc g => acc ++ f g) init = init ++ (L.map f).flatten := by
  induction L generalizing init with
  | nil => simp
  | cons g L ih =>
    rw [List.foldl_cons, ih]
    simp [List.append_assoc]

theorem mem_enum_facts {l : List ℕ} {x : ℕ × ℕ} (hx : x ∈ l.enum) :
    x.1 < l.length ∧ x.2 = l.getD x.1 0 := by
  rcases List.mem_iff_getElem.mp hx with ⟨k, hk, hke⟩
  have hk2 : k < l.length := by simpa [List.enum_length] using hk
  have he := List.getElem_enum l k hk
  rw [he] at hke
  rw [← hke]
  exact ⟨hk2, (List.getD_eq_getElem l 0 hk2).symm⟩

theorem enum_pairwise_fst {α : Type} (l : List α) :
    l.enum.Pairwise (fun a b => a.1 < b.1) := by
  have h := List.pairwise_lt_range l.length
  rw [← List.enum_map_fst l] at h
  exact List.pairwise_map.mp h

theorem sortGroup_eq (teams : List Team) (g : List (ℕ × ℕ)) :
    sortGroup teams g =
      g.insertionSort (fun a b => pGet teams b.1 ≤ pGet teams a.1) := by
  unfold sortGroup
  split
  · rfl
  · rcases g with _ | ⟨a, _ | ⟨b, t⟩⟩
    · rfl
    · rfl
    · simp at *

theorem mem_sortGroup {teams : List Team} {g : List (ℕ × ℕ)} {x : ℕ × ℕ}
    (hx : x ∈ sortGroup teams g) : x ∈ g := by
  rw [sortGroup_eq] at hx
  exact (List.mem_insertionSort _).mp hx

theorem winsSorted_facts (w : List ℕ) :
    ∀ x ∈ winsSorted w, x.1 < w.length ∧ x.2 = wGet w x.1 := by
  intro x hx
  unfold winsSorted at hx
  exact mem_enum_facts ((List.mem_insertionSort _).mp hx)

theorem winsSorted_pairwise (w : List ℕ) :
    (winsSorted w).Pairwise
      (fun a b : ℕ × ℕ => (b.2 ≤ a.2) ∧ (a.2 ≤ b.2 → a.1 < b.1)) := by
  unfold winsSorted
  exact pairwise_insertionSort_stable (fun a b => le_total b.2 a.2)
    (fun a b c hab hbc => le_trans hbc hab) w.enum (enum_pairwise_fst w)

theorem workerRel_total : ∀ a b : ℕ × ℕ × ℚ, workerRel a b ∨ workerRel b a := by
  intro a b
  unfold workerRel
  rcases lt_trichotomy a.2.1 b.2.1 with h | h | h
  · exact Or.inr (Or.inl h)
  · rcases le_total a.2.2 b.2.2 with hp | hp
    · exact Or.inr (Or.inr ⟨h, hp⟩)
    · exact Or.inl (Or.inr ⟨h.symm, hp⟩)
  · exact Or.inl (Or.inl h)

theorem workerRel_trans :
    ∀ a b c : ℕ × ℕ × ℚ, workerRel a b → workerRel b c → workerRel a c := by
  intro a b c hab hbc
  unfold workerRel at *
  rcases hab with h1 | ⟨h1e, h1p⟩ <;> rcases hbc with h2 | ⟨h2e, h2p⟩
  · exact Or.inl (by omega)
  · exact Or.inl (by omega)
  · exact Or.inl (by omega)
  · exact Or.inr ⟨h2e.trans h1e, h2p.trans h1p⟩

theorem rankRel_antisymm (teams : List Team) (w : List ℕ) :
    ∀ i j : ℕ, rankRel teams w i j → rankRel teams w j i → i = j := by
  intro i j hij hji
  unfold rankRel at *
  rcases hij with h1 | ⟨h1e, h1r⟩ <;> rcases hji with h2 | ⟨h2e, h2r⟩
  · omega
  · omega
  · omega
  · rcases h1r with hp1 | ⟨hp1e, hi⟩ <;> rcases h2r with hp2 | ⟨hp2e, hj⟩
    · exact absurd hp2 (lt_asymm hp1)
    · rw [hp2e] at hp1
      exact absurd hp1 (lt_irrefl _)
    · rw [hp1e] at hp2
      exact absurd hp2 (lt_irrefl _)
    · omega

theorem td_pf_lookup (teams : List Team) (i : ℕ) :
    ((teams.map (fun t => (t.wins, t.fantasy_points_for))).getD i (0, 0)).2 =
      pGet teams i := by
  by_cases hi : i < teams.length
  · rw [List.getD_eq_getElem _ _ (by simpa using hi), List.getElem_map]
    unfold pGet
    rw [List.getD_eq_getElem _ _ hi]
  · rw [List.getD_eq_default _ _ (by simpa using hi)]
    unfold pGet
    rw [List.getD_eq_default _ _ (by omega)]
    rfl

theorem flatten_map_perm {α : Type} (G : List (List α)) (f : List α → List α)
    (h : ∀ g ∈ G, (f g).Perm g) : ((G.map f).flatten).Perm G.flatten := by
  induction G with
  | nil => exact List.Perm.refl _
  | cons g G ih =>
    simp only [List.map_cons, List.flatten_cons]
    exact (h g (List.mem_cons_self g G)).append
      (ih (fun g' hg' => h g' (List.mem_cons_of_mem g hg')))

theorem mcFinalRankings_eq_flatten (teams : List Team) (w : List ℕ) :
    mcFinalRankings teams w =
      (((tiedGroups (winsSorted w)).map (sortGroup teams)).flatten).map Prod.fst := by
  unfold mcFinalRankings
  dsimp only
  rw [foldl_append_eq_flatten, List.nil_append, List.map_flatten, List.map_map]
  rfl

theorem mcFinalRankings_perm (teams : List Team) (w : List ℕ) :
    (mcFinalRankings teams w).Perm (List.range w.length) := by
  rw [mcFinalRankings_eq_flatten]
  have h1 : (((tiedGroups (winsSorted w)).map (sortGroup teams)).flatten).Perm
      (winsSorted w) := by
    have h := flatten_map_perm (tiedGroups (winsSorted w)) (sortGroup teams)
      (fun g _ => by rw [sortGroup_eq]; exact List.perm_insertionSort _ g)
    rwa [tiedGroups_flatten] at h
  have h2 : (winsSorted w).Perm w.enum := List.perm_insertionSort _ _
  have h3 := (h1.trans h2).map Prod.fst
  rwa [List.enum_map_fst] at h3

theorem workerRecords_pairwise_fst (td : List (ℕ × ℚ)) (w : List ℕ) :
    (workerRecords td w).Pairwise (fun a b => a.1 < b.1) := by
  unfold workerRecords
  refine List.pairwise_map.mpr ?_
  exact enum_pairwise_fst w

theorem workerSorted_facts (td : List (ℕ × ℚ)) (w : List ℕ) :
    ∀ x ∈ workerSortedRecords td w,
      x.1 < w.length ∧ x.2.1 = wGet w x.1 ∧ x.2.2 = (td.getD x.1 (0, 0)).2 := by
  intro x hx
  unfold workerSortedRecords at hx
  have hx2 : x ∈ workerRecords td w := (List.mem_insertionSort _).mp hx
  unfold workerRecords at hx2
  rcases List.mem_map.mp hx2 with ⟨p, hp, rfl⟩
  have hf := mem_enum_facts hp
  exact ⟨hf.1, hf.2, rfl⟩

theorem workerRankings_perm (td : List (ℕ × ℚ)) (w : List ℕ) :
    (workerRankings td w).Perm (List.range w.length) := by
  unfold workerRankings workerSortedRecords
  have h := (List.perm_insertionSort workerRel (workerRecords td w)).map Prod.fst
  unfold workerRecords at h
  rwa [map_fst_map_enum] at h

set_option maxHeartbeats 1000000 in
theorem mcFinalRankings_sorted (teams : List Team) (w : List ℕ) :
    (mcFinalRankings teams w).Pairwise (rankRel teams w) := by
  have hP1 := winsSorted_pairwise w
  have hfacts := winsSorted_facts w
  have hflatP1 : ((tiedGroups (winsSorted w)).flatten).Pairwise
      (fun a b : ℕ × ℕ => (b.2 ≤ a.2) ∧ (a.2 ≤ b.2 → a.1 < b.1)) := by
    rw [tiedGroups_flatten]
    exact hP1
  have hsub : ∀ g ∈ tiedGroups (winsSorted w), ∀ x ∈ g, x ∈ winsSorted w := by
    intro g hg x hx
    have : x ∈ (tiedGroups (winsSorted w)).flatten := List.mem_flatten.mpr ⟨g, hg, hx⟩
    rwa [tiedGroups_flatten] at this
  rw [mcFinalRankings_eq_flatten]
  refine List.pairwise_map.mpr ?_
  refine List.pairwise_flatten.mpr ⟨?_, ?_⟩
  · intro g1 hg1
    rcases List.mem_map.mp hg1 with ⟨g, hgG, rfl⟩
    have hgP1 : g.Pairwise
        (fun a b : ℕ × ℕ => (b.2 ≤ a.2) ∧ (a.2 ≤ b.2 → a.1 < b.1)) :=
      (List.pairwise_flatten.mp hflatP1).1 g hgG
    rcases tiedGroups_snd_eq (winsSorted w) g hgG with ⟨cwin, hcwin⟩
    have hgfst : g.Pairwise (fun a b : ℕ × ℕ => a.1 < b.1) := by
      refine List.Pairwise.imp_of_mem ?_ hgP1
      intro a b ha hb hab
      refine hab.2 ?_
      rw [hcwin a ha, hcwin b hb]
    have hP2 : (sortGroup teams g).Pairwise (fun a b : ℕ × ℕ =>
        (pGet teams b.1 ≤ pGet teams a.1) ∧
        (pGet teams a.1 ≤ pGet teams b.1 → a.1 < b.1)) := by
      rw [sortGroup_eq]
      exact pairwise_insertionSort_stable
        (fun a b => le_total (pGet teams b.1) (pGet teams a.1))
        (fun a b c (h1 : pGet teams b.1 ≤ pGet teams a.1)
          (h2 : pGet teams c.1 ≤ pGet teams b.1) => h2.trans h1) g hgfst
    refine List.Pairwise.imp_of_mem ?_ hP2
    intro a b ha hb hab
    have haw := hfacts a (hsub g hgG a (mem_sortGroup ha))
    have hbw := hfacts b (hsub g hgG b (mem_sortGroup hb))
    have heqw : wGet w b.1 = wGet w a.1 := by
      rw [← haw.2, ← hbw.2, hcwin a (mem_sortGroup ha), hcwin b (mem_sortGroup hb)]
    unfold rankRel
    right
    refine ⟨heqw, ?_⟩
    rcases lt_or_eq_of_le hab.1 with hlt | heq
    · exact Or.inl hlt
    · exact Or.inr ⟨heq, le_of_lt (hab.2 (le_of_eq heq.symm))⟩
  · have hcross := tiedGroups_cross (winsSorted w) (hP1.imp (fun h => h.1))
    refine List.pairwise_map.mpr ?_
    refine List.Pairwise.imp_of_mem ?_ hcross
    intro g1 g2 hg1 hg2 hc x hx y hy
    have hx1 := mem_sortGroup hx
    have hy1 := mem_sortGroup hy
    have hxw := hfacts x (hsub g1 hg1 x hx1)
    have hyw := hfacts y (hsub g2 hg2 y hy1)
    unfold rankRel
    left
    rw [← hxw.2, ← hyw.2]
    exact hc x hx1 y hy1

theorem workerRankings_sorted (teams : List Team) (w : List ℕ) :
    (workerRankings (teams.map (fun t => (t.wins, t.fantasy_points_for))) w).Pairwise
      (rankRel teams w) := by
  unfold workerRankings
  refine List.pairwise_map.mpr ?_
  have hP3 : (workerSortedRecords (teams.map (fun t => (t.wins, t.fantasy_points_for))) w).Pairwise
      (fun a b => workerRel a b ∧ (workerRel b a → a.1 < b.1)) := by
    unfold workerSortedRecords
    exact pairwise_insertionSort_stable workerRel_total workerRel_trans _
      (workerRecords_pairwise_fst _ w)
  refine List.Pairwise.imp_of_mem ?_ hP3
  intro a b ha hb hab
  have hfa := workerSorted_facts _ w a ha
  have hfb := workerSorted_facts _ w b hb
  have hpa : a.2.2 = pGet teams a.1 := by rw [hfa.2.2, td_pf_lookup]
  have hpb : b.2.2 = pGet teams b.1 := by rw [hfb.2.2, td_pf_lookup]
  have hab1 := hab.1
  unfold workerRel at hab1
  unfold rankRel
  rcases hab1 with hlt | ⟨heq, hle⟩
  · left
    rw [← hfa.2.1, ← hfb.2.1]
    exact hlt
  · right
    refine ⟨by rw [← hfa.2.1, ← hfb.2.1]; exact heq, ?_⟩
    rcases lt_or_eq_of_le hle with hplt | hpeq
    · left
      rw [← hpa, ← hpb]
      exact hplt
    · right
      refine ⟨by rw [← hpa, ← hpb]; exact hpeq, ?_⟩
      refine le_of_lt (hab.2 ?_)
      unfold workerRel
      exact Or.inr ⟨heq.symm, le_of_eq hpeq.symm⟩

theorem mc_worker_rankings_eq (teams : List Team) (w : List ℕ) :
    mcFinalRankings teams w =
      workerRankings (teams.map (fun t => (t.wins, t.fantasy_points_for))) w := by
  haveI : IsAntisymm ℕ (rankRel teams w) := ⟨rankRel_antisymm teams w⟩
  exact List.eq_of_perm_of_sorted
    ((mcFinalRankings_perm teams w).trans (workerRankings_perm _ w).symm)
    (mcFinalRankings_sorted teams w)
    (workerRankings_sorted teams w)

/-! ## Characterisation of the per-draw counting folds -/

theorem foldl_range_getD {α σ : Type} (f : σ → α → σ) (l : List α) (d : α) (n : ℕ)
    (hn : n ≤ l.length) (init : σ) :
    (List.range n).foldl (fun st i => f st (l.getD i d)) init = (l.take n).foldl f init := by
  have htake : l.take n = (List.range n).map (fun i => l.getD i d) := by
    apply List.ext_getElem
    · simp only [List.length_take, List.length_map, List.length_range]
      omega
    · intro k h1 h2
      rw [List.getElem_take, List.getElem_map, List.getElem_range]
      have hk : k < l.length := by
        simp only [List.length_take] at h1
        omega
      rw [List.getD_eq_getElem _ _ hk]
  rw [htake, List.foldl_map]

theorem getD_fst_triple (records : List (ℕ × ℕ × ℚ)) (i : ℕ) :
    (records.getD i (0, 0, 0)).1 = (records.map Prod.fst).getD i 0 := by
  by_cases hi : i < records.length
  · rw [List.getD_eq_getElem _ _ hi, List.getD_eq_getElem _ _ (by simpa using hi),
      List.getElem_map]
  · rw [List.getD_eq_default _ _ (by omega), List.getD_eq_default _ _ (by simpa using not_lt.mp hi)]

theorem length_incTeamAt (cw : ℕ) (w : List ℕ) (idx : ℕ) (ts : List Team) :
    (incTeamAt cw w idx ts).length = ts.length := by
  unfold incTeamAt
  dsimp only
  split <;> simp [length_listModify]

theorem getD_incTeamAt_ne (cw : ℕ) (w : List ℕ) {idx j : ℕ} (ts : List Team)
    (h : idx ≠ j) : (incTeamAt cw w idx ts).getD j default = ts.getD j default := by
  unfold incTeamAt
  dsimp only
  split <;> simp only [getD_listModify_ne _ _ _ h]

theorem getD_incTeamAt_self (cw : ℕ) (w : List ℕ) {idx : ℕ} (ts : List Team)
    (h : idx < ts.length) :
    (incTeamAt cw w idx ts).getD idx default =
      mcApplyInc cw (wGet w idx) (ts.getD idx default) := by
  unfold incTeamAt mcApplyInc wGet
  dsimp only
  have hlen : idx < (listModify
      (fun t => { t with playoff_scenarios := t.playoff_scenarios + 1 }) idx ts).length := by
    rw [length_listModify]
    exact h
  split
  · rw [getD_listModify_self _ _ hlen, getD_listModify_self _ _ h]
  · rw [getD_listModify_self _ _ h]

theorem length_foldl_incTeamAt (cw : ℕ) (w : List ℕ) (T : List ℕ) (ts : List Team) :
    (T.foldl (fun ts2 idx => incTeamAt cw w idx ts2) ts).length = ts.length := by
  induction T generalizing ts with
  | nil => rfl
  | cons i T ih => rw [List.foldl_cons, ih, length_incTeamAt]

theorem getD_foldl_incTeamAt_not_mem (cw : ℕ) (w : List ℕ) (T : List ℕ) (ts : List Team)
    {j : ℕ} (h : j ∉ T) :
    (T.foldl (fun ts2 idx => incTeamAt cw w idx ts2) ts).getD j default =
      ts.getD j default := by
  induction T generalizing ts with
  | nil => rfl
  | cons i T ih =>
    rw [List.foldl_cons, ih _ (fun hc => h (List.mem_cons_of_mem i hc)),
      getD_incTeamAt_ne cw w ts (fun (hc : i = j) => h (by rw [← hc]; exact List.mem_cons_self i T))]

theorem getD_foldl_incTeamAt_mem (cw : ℕ) (w : List ℕ) (T : List ℕ) (ts : List Team)
    {j : ℕ} (hnd : T.Nodup) (hj : j ∈ T) (hlt : j < ts.length) :
    (T.foldl (fun ts2 idx => incTeamAt cw w idx ts2) ts).getD j default =
      mcApplyInc cw (wGet w j) (ts.getD j default) := by
  rcases List.append_of_mem hj with ⟨T1, T2, rfl⟩
  have hnd2 := List.nodup_middle.mp hnd
  have hj1 : j ∉ T1 := fun hc => (List.nodup_cons.mp hnd2).1 (List.mem_append.mpr (Or.inl hc))
  have hj2 : j ∉ T2 := fun hc => (List.nodup_cons.mp hnd2).1 (List.mem_append.mpr (Or.inr hc))
  rw [List.foldl_append, List.foldl_cons]
  rw [getD_foldl_incTeamAt_not_mem cw w T2 _ hj2]
  have hlen1 : (T1.foldl (fun ts2 idx => incTeamAt cw w idx ts2) ts).length = ts.length :=
    length_foldl_incTeamAt cw w T1 ts
  rw [getD_incTeamAt_self cw w _ (by omega)]
  rw [getD_foldl_incTeamAt_not_mem cw w T1 ts hj1]

theorem length_incLocalsAt_fst (cw : ℕ) (w : List ℕ) (idx : ℕ) (st : List ℕ × List ℕ) :
    (incLocalsAt cw w idx st).1.length = st.1.length := by
  unfold incLocalsAt
  simp [length_listModify]

theorem length_incLocalsAt_snd (cw : ℕ) (w : List ℕ) (idx : ℕ) (st : List ℕ × List ℕ) :
    (incLocalsAt cw w idx st).2.length = st.2.length := by
  unfold incLocalsAt
  dsimp only
  split <;> simp [length_listModify]

theorem getD_incLocalsAt_ne (cw : ℕ) (w : List ℕ) {idx j : ℕ} (st : List ℕ × List ℕ)
    (h : idx ≠ j) :
    (incLocalsAt cw w idx st).1.getD j 0 = st.1.getD j 0 ∧
    (incLocalsAt cw w idx st).2.getD j 0 = st.2.getD j 0 := by
  unfold incLocalsAt
  dsimp only
  refine ⟨getD_listModify_ne _ _ _ h, ?_⟩
  split
  · exact getD_listModify_ne _ _ _ h
  · rfl

theorem getD_incLocalsAt_self (cw : ℕ) (w : List ℕ) {idx : ℕ} (st : List ℕ × List ℕ)
    (h1 : idx < st.1.length) (h2 : idx < st.2.length) :
    (incLocalsAt cw w idx st).1.getD idx 0 = st.1.getD idx 0 + 1 ∧
    (incLocalsAt cw w idx st).2.getD idx 0 =
      (if cw < wGet w idx then st.2.getD idx 0 + 1 else st.2.getD idx 0) := by
  unfold incLocalsAt wGet
  dsimp only
  refine ⟨getD_listModify_self _ _ h1, ?_⟩
  split
  · rw [getD_listModify_self _ _ h2]
  · rfl

theorem length_foldl_incLocalsAt_fst (cw : ℕ) (w : List ℕ) (T : List ℕ)
    (st : List ℕ × List ℕ) :
    (T.foldl (fun st2 idx => incLocalsAt cw w idx st2) st).1.length = st.1.length := by
  induction T generalizing st with
  | nil => rfl
  | cons i T ih => rw [List.foldl_cons, ih, length_incLocalsAt_fst]

theorem length_foldl_incLocalsAt_snd (cw : ℕ) (w : List ℕ) (T : List ℕ)
    (st : List ℕ × List ℕ) :
    (T.foldl (fun st2 idx => incLocalsAt cw w idx st2) st).2.length = st.2.length := by
  induction T generalizing st with
  | nil => rfl
  | cons i T ih => rw [List.foldl_cons, ih, length_incLocalsAt_snd]

theorem getD_foldl_incLocalsAt_not_mem (cw : ℕ) (w : List ℕ) (T : List ℕ)
    (st : List ℕ × List ℕ) {j : ℕ} (h : j ∉ T) :
    (T.foldl (fun st2 idx => incLocalsAt cw w idx st2) st).1.getD j 0 = st.1.getD j 0 ∧
    (T.foldl (fun st2 idx => incLocalsAt cw w idx st2) st).2.getD j 0 = st.2.getD j 0 := by
  induction T generalizing st with
  | nil => exact ⟨rfl, rfl⟩
  | cons i T ih =>
    rw [List.foldl_cons]
    have hne := getD_incLocalsAt_ne cw w st
      (fun (hc : i = j) => h (by rw [← hc]; exact List.mem_cons_self i T))
    have hrest := ih (incLocalsAt cw w i st) (fun hc => h (List.mem_cons_of_mem i hc))
    exact ⟨hrest.1.trans hne.1, hrest.2.trans hne.2⟩

theorem getD_foldl_incLocalsAt_mem (cw : ℕ) (w : List ℕ) (T : List ℕ)
    (st : List ℕ × List ℕ) {j : ℕ} (hnd : T.Nodup) (hj : j ∈ T)
    (h1 : j < st.1.length) (h2 : j < st.2.length) :
    (T.foldl (fun st2 idx => incLocalsAt cw w idx st2) st).1.getD j 0 =
      st.1.getD j 0 + 1 ∧
    (T.foldl (fun st2 idx => incLocalsAt cw w idx st2) st).2.getD j 0 =
      (if cw < wGet w j then st.2.getD j 0 + 1 else st.2.getD j 0) := by
  rcases List.append_of_mem hj with ⟨T1, T2, rfl⟩
  have hnd2 := List.nodup_middle.mp hnd
  have hj1 : j ∉ T1 := fun hc => (List.nodup_cons.mp hnd2).1 (List.mem_append.mpr (Or.inl hc))
  have hj2 : j ∉ T2 := fun hc => (List.nodup_cons.mp hnd2).1 (List.mem_append.mpr (Or.inr hc))
  rw [List.foldl_append, List.foldl_cons]
  have hmid := getD_foldl_incLocalsAt_not_mem cw w T1 st hj1
  have hl1 : j < (T1.foldl (fun st2 idx => incLocalsAt cw w idx st2) st).1.length := by
    rw [length_foldl_incLocalsAt_fst]
    exact h1
  have hl2 : j < (T1.foldl (fun st2 idx => incLocalsAt cw w idx st2) st).2.length := by
    rw [length_foldl_incLocalsAt_snd]
    exact h2
  have hself := getD_incLocalsAt_self cw w
    (T1.foldl (fun st2 idx => incLocalsAt cw w idx st2) st) hl1 hl2
  have hrest := getD_foldl_incLocalsAt_not_mem cw w T2
    (incLocalsAt cw w j (T1.foldl (fun st2 idx => incLocalsAt cw w idx st2) st)) hj2
  refine ⟨?_, ?_⟩
  · rw [hrest.1, hself.1, hmid.1]
  · rw [hrest.2, hself.2, hmid.2]

theorem length_mcFinalRankings (teams : List Team) (w : List ℕ) :
    (mcFinalRankings teams w).length = w.length := by
  rw [(mcFinalRankings_perm teams w).length_eq, List.length_range]

theorem length_workerSortedRecords (td : List (ℕ × ℚ)) (w : List ℕ) :
    (workerSortedRecords td w).length = w.length := by
  unfold workerSortedRecords workerRecords
  simp [List.enum_length]

theorem length_workerRankings (td : List (ℕ × ℚ)) (w : List ℕ) :
    (workerRankings td w).length = w.length := by
  unfold workerRankings
  rw [List.length_map, length_workerSortedRecords]

theorem nodup_mcFinalRankings (teams : List Team) (w : List ℕ) :
    (mcFinalRankings teams w).Nodup :=
  ((mcFinalRankings_perm teams w).nodup_iff).mpr (List.nodup_range w.length)

theorem nodup_workerRankings (td : List (ℕ × ℚ)) (w : List ℕ) :
    (workerRankings td w).Nodup :=
  ((workerRankings_perm td w).nodup_iff).mpr (List.nodup_range w.length)

theorem mem_mcFinalRankings_lt (teams : List Team) (w : List ℕ) {j : ℕ}
    (hj : j ∈ mcFinalRankings teams w) : j < w.length := by
  have := (mcFinalRankings_perm teams w).mem_iff.mp hj
  exact List.mem_range.mp this

theorem mcCountDraw_eq_take_fold (teams : List Team) (league : League) (w : List ℕ) :
    mcCountDraw teams league w =
      (((mcFinalRankings teams w).take
          (min league.number_of_playoff_teams (mcFinalRankings teams w).length)).foldl
        (fun ts idx => incTeamAt (mcCutoffWins teams league w) w idx ts) teams) := by
  unfold mcCountDraw mcStep
  dsimp only
  exact foldl_range_getD
    (fun ts idx => incTeamAt (mcCutoffWins teams league w) w idx ts)
    (mcFinalRankings teams w) 0
    (min league.number_of_playoff_teams (mcFinalRankings teams w).length)
    (min_le_right _ _) teams

theorem workerCountDraw_eq_take_fold (td : List (ℕ × ℚ)) (spots : ℕ) (w : List ℕ)
    (locals : List ℕ × List ℕ) :
    workerCountDraw td spots w locals =
      (((workerRankings td w).take (min spots (workerSortedRecords td w).length)).foldl
        (fun st idx => incLocalsAt (workerCutoffWins td spots w) w idx st) locals) := by
  unfold workerCountDraw
  dsimp only
  have hstep : (fun (st : List ℕ × List ℕ) i =>
      incLocalsAt (workerCutoffWins td spots w) w
        ((workerSortedRecords td w).getD i (0, 0, 0)).1 st) =
      (fun st i => incLocalsAt (workerCutoffWins td spots w) w
        ((workerRankings td w).getD i 0) st) := by
    funext st i
    rw [getD_fst_triple]
    rfl
  rw [hstep]
  refine foldl_range_getD
    (fun st idx => incLocalsAt (workerCutoffWins td spots w) w idx st)
    (workerRankings td w) 0 (min spots (workerSortedRecords td w).length) ?_ locals
  rw [length_workerRankings, ← length_workerSortedRecords td w]
  exact min_le_right _ _

theorem cutoffs_agree (teams : List Team) (league : League) (w : List ℕ) :
    mcCutoffWins teams league w =
      workerCutoffWins (teams.map (fun t => (t.wins, t.fantasy_points_for)))
        league.number_of_playoff_teams w := by
  unfold mcCutoffWins workerCutoffWins
  dsimp only
  rw [length_mcFinalRankings, length_workerSortedRecords]
  by_cases hc : 0 < min league.number_of_playoff_teams w.length
  · rw [if_pos hc, if_pos hc]
    set c := min league.number_of_playoff_teams w.length with hcdef
    set td := teams.map (fun t => (t.wins, t.fantasy_points_for)) with htd
    have hclen : c - 1 < (workerSortedRecords td w).length := by
      rw [length_workerSortedRecords]
      omega
    have hx : (workerSortedRecords td w).getD (c - 1) (0, 0, 0) ∈
        workerSortedRecords td w := by
      rw [List.getD_eq_getElem _ _ hclen]
      exact List.getElem_mem hclen
    have hfacts := workerSorted_facts td w _ hx
    have hrank : (mcFinalRankings teams w).getD (c - 1) 0 =
        ((workerSortedRecords td w).getD (c - 1) (0, 0, 0)).1 := by
      rw [mc_worker_rankings_eq teams w, getD_fst_triple]
      rfl
    rw [hrank, hfacts.2.1]
    rfl
  · rw [if_neg hc, if_neg hc]

theorem mcApplyInc_q (cw v : ℕ) (t : Team) :
    (mcApplyInc cw v t).playoff_scenarios = t.playoff_scenarios + 1 := by
  unfold mcApplyInc
  dsimp only
  split <;> rfl

theorem mcApplyInc_g (cw v : ℕ) (t : Team) :
    (mcApplyInc cw v t).guaranteed_playoff_scenarios =
      (if cw < v then t.guaranteed_playoff_scenarios + 1
       else t.guaranteed_playoff_scenarios) := by
  unfold mcApplyInc
  dsimp only
  split <;> rfl

theorem getD_replicate_zero (n j : ℕ) : (List.replicate n (0 : ℕ)).getD j 0 = 0 := by
  by_cases hj : j < n
  · rw [List.getD_eq_getElem _ _ (by simpa using hj), List.getElem_replicate]
  · rw [List.getD_eq_default _ _ (by simpa using not_lt.mp hj)]

/-- Claim C9: given the same simulated win totals `w` for every team, the
single-threaded engine's grouped tie-break resolution and the parallel
worker's single lexicographic sort produce the same final ranking, the same
cutoff wins, and identical per-draw counter increments (the worker's local
increments from zeroed arrays equal the single-threaded engine's in-place
increments). -/
theorem mc_and_worker_draws_agree (teams : List Team) (league : League) (w : List ℕ) :
    (mcFinalRankings teams w =
      workerRankings (teams.map (fun t => (t.wins, t.fantasy_points_for))) w) ∧
    (mcCutoffWins teams league w =
      workerCutoffWins (teams.map (fun t => (t.wins, t.fantasy_points_for)))
        league.number_of_playoff_teams w) ∧
    (∀ j : ℕ, j < teams.length →
      ((mcCountDraw teams league w).getD j default).playoff_scenarios =
        (teams.getD j default).playoff_scenarios +
          (workerCountDraw (teams.map (fun t => (t.wins, t.fantasy_points_for)))
            league.number_of_playoff_teams w
            (List.replicate teams.length 0, List.replicate teams.length 0)).1.getD j 0 ∧
      ((mcCountDraw teams league w).getD j default).guaranteed_playoff_scenarios =
        (teams.getD j default).guaranteed_playoff_scenarios +
          (workerCountDraw (teams.map (fun t => (t.wins, t.fantasy_points_for)))
            league.number_of_playoff_teams w
            (List.replicate teams.length 0, List.replicate teams.length 0)).2.getD j 0) := by
  refine ⟨mc_worker_rankings_eq teams w, cutoffs_agree teams league w, ?_⟩
  intro j hj
  have hmc : mcCountDraw teams league w =
      ((mcFinalRankings teams w).take (min league.number_of_playoff_teams w.length)).foldl
        (fun ts idx => incTeamAt (mcCutoffWins teams league w) w idx ts) teams := by
    rw [mcCountDraw_eq_take_fold, length_mcFinalRankings]
  have hwk : workerCountDraw (teams.map (fun t => (t.wins, t.fantasy_points_for)))
      league.number_of_playoff_teams w
      (List.replicate teams.length 0, List.replicate teams.length 0) =
      ((mcFinalRankings teams w).take (min league.number_of_playoff_teams w.length)).foldl
        (fun st idx => incLocalsAt (mcCutoffWins teams league w) w idx st)
        (List.replicate teams.length 0, List.replicate teams.length 0) := by
    rw [workerCountDraw_eq_take_fold, length_workerSortedRecords,
      ← mc_worker_rankings_eq teams w, ← cutoffs_agree teams league w]
  have hnd : ((mcFinalRankings teams w).take
      (min league.number_of_playoff_teams w.length)).Nodup :=
    List.Nodup.sublist (List.take_sublist _ _) (nodup_mcFinalRankings teams w)
  rw [hmc, hwk]
  by_cases hjT : j ∈ (mcFinalRankings teams w).take
      (min league.number_of_playoff_teams w.length)
  · have hmcj := getD_foldl_incTeamAt_mem (mcCutoffWins teams league w) w _ teams hnd hjT hj
    have hwkj := getD_foldl_incLocalsAt_mem (mcCutoffWins teams league w) w _
      (List.replicate teams.length 0, List.replicate teams.length 0) hnd hjT
      (by simpa using hj) (by simpa using hj)
    rw [hmcj]
    constructor
    · rw [mcApplyInc_q, hwkj.1, getD_replicate_zero]
    · rw [mcApplyInc_g, hwkj.2, getD_replicate_zero]
      split_ifs with hcv <;> omega
  · have hmcj := getD_foldl_incTeamAt_not_mem (mcCutoffWins teams league w) w _ teams hjT
    have hwkj := getD_foldl_incLocalsAt_not_mem (mcCutoffWins teams league w) w _
      (List.replicate teams.length 0, List.replicate teams.length 0) hjT
    rw [hmcj]
    refine ⟨?_, ?_⟩
    · rw [hwkj.1, getD_replicate_zero]
      omega
    · rw [hwkj.2, getD_replicate_zero]
      omega


/-- Claim C9 (witness): the agreement instantiated on the concrete 4-team
league with simulated wins `[7, 7, 7, 3]` (a three-way tie at the top,
resolved by points-for) and team index 0. -/
theorem mc_worker_agree_witness :
    (mcFinalRankings c2teams [7, 7, 7, 3] =
      workerRankings (c2teams.map (fun t => (t.wins, t.fantasy_points_for))) [7, 7, 7, 3]) ∧
    (0 < c2teams.length ∧
      ((mcCountDraw c2teams c2league [7, 7, 7, 3]).getD 0 default).playoff_scenarios =
        (c2teams.getD 0 default).playoff_scenarios +
          (workerCountDraw (c2teams.map (fun t => (t.wins, t.fantasy_points_for)))
            c2league.number_of_playoff_teams [7, 7, 7, 3]
            (List.replicate c2teams.length 0, List.replicate c2teams.length 0)).1.getD 0 0) :=
  ⟨(mc_and_worker_draws_agree c2teams c2league [7, 7, 7, 3]).1,
   by decide,
   ((mc_and_worker_draws_agree c2teams c2league [7, 7, 7, 3]).2.2 0 (by decide)).1⟩

/-! ## Claim C10: each draw counts exactly the playoff-spot quota -/

theorem countP_mem_nodup (n : ℕ) (T : List ℕ) (hnd : T.Nodup) (hsub : ∀ x ∈ T, x < n) :
    (List.range n).countP (fun j => decide (j ∈ T)) = T.length := by
  rw [List.countP_eq_length_filter]
  have h1 : ((List.range n).filter (fun j => decide (j ∈ T))).Nodup :=
    (List.nodup_range n).filter _
  have hmem : ∀ x : ℕ, x ∈ (List.range n).filter (fun j => decide (j ∈ T)) ↔ x ∈ T := by
    intro x
    simp only [List.mem_filter, List.mem_range, decide_eq_true_eq]
    exact ⟨fun h => h.2, fun hx => ⟨hsub x hx, hx⟩⟩
  exact ((List.perm_ext_iff_of_nodup h1 hnd).mpr hmem).length_eq

/-- Claim C10: in every Monte Carlo draw of either engine, exactly
`min(playoff_spots, team_count)` teams receive a `playoff_scenarios`
increment — the first `min(playoff_spots, team_count)` teams of the
tie-broken ranking, so teams tied at the cutoff win total but ranked below
the boundary by the points-for tie-break get nothing (unlike exact mode,
where by `determine_is_cutoff_evaluator` every team with total wins at least
the cutoff is counted). -/
theorem draws_increment_exactly_min_spots (teams : List Team) (league : League)
    (w : List ℕ) (hw : w.length = teams.length) (td : List (ℕ × ℚ)) (spots : ℕ)
    (lq lg : List ℕ) (hlq : lq.length = w.length) (hlg : lg.length = w.length) :
    ((List.range teams.length).countP (fun j =>
        decide (((mcCountDraw teams league w).getD j default).playoff_scenarios =
          (teams.getD j default).playoff_scenarios + 1)) =
      min league.number_of_playoff_teams teams.length) ∧
    ((List.range w.length).countP (fun j =>
        decide ((workerCountDraw td spots w (lq, lg)).1.getD j 0 = lq.getD j 0 + 1)) =
      min spots w.length) := by
  constructor
  · have hmc := mcCountDraw_eq_take_fold teams league w
    rw [length_mcFinalRankings] at hmc
    have hnd : ((mcFinalRankings teams w).take
        (min league.number_of_playoff_teams w.length)).Nodup :=
      List.Nodup.sublist (List.take_sublist _ _) (nodup_mcFinalRankings teams w)
    have hsubT : ∀ x ∈ (mcFinalRankings teams w).take
        (min league.number_of_playoff_teams w.length), x < teams.length := by
      intro x hx
      have := mem_mcFinalRankings_lt teams w ((List.take_sublist _ _).subset hx)
      omega
    have hcong : ∀ j ∈ List.range teams.length,
        (decide (((mcCountDraw teams league w).getD j default).playoff_scenarios =
          (teams.getD j default).playoff_scenarios + 1) = true ↔
        decide (j ∈ (mcFinalRankings teams w).take
          (min league.number_of_playoff_teams w.length)) = true) := by
      intro j hj
      have hjlt : j < teams.length := List.mem_range.mp hj
      simp only [decide_eq_true_eq]
      by_cases hjT : j ∈ (mcFinalRankings teams w).take
          (min league.number_of_playoff_teams w.length)
      · rw [hmc, getD_foldl_incTeamAt_mem _ _ _ _ hnd hjT hjlt, mcApplyInc_q]
        simp [hjT]
      · rw [hmc, getD_foldl_incTeamAt_not_mem _ _ _ _ hjT]
        simp only [hjT, iff_false]
        omega
    rw [List.countP_congr hcong, countP_mem_nodup teams.length _ hnd hsubT,
      List.length_take, length_mcFinalRankings, hw,
      min_eq_left (min_le_right league.number_of_playoff_teams teams.length)]
  · have hwk := workerCountDraw_eq_take_fold td spots w (lq, lg)
    rw [length_workerSortedRecords] at hwk
    have hnd : ((workerRankings td w).take (min spots w.length)).Nodup :=
      List.Nodup.sublist (List.take_sublist _ _) (nodup_workerRankings td w)
    have hsubT : ∀ x ∈ (workerRankings td w).take (min spots w.length),
        x < w.length := by
      intro x hx
      have := (workerRankings_perm td w).mem_iff.mp ((List.take_sublist _ _).subset hx)
      exact List.mem_range.mp this
    have hcong : ∀ j ∈ List.range w.length,
        (decide ((workerCountDraw td spots w (lq, lg)).1.getD j 0 =
          lq.getD j 0 + 1) = true ↔
        decide (j ∈ (workerRankings td w).take (min spots w.length)) = true) := by
      intro j hj
      have hjlt : j < w.length := List.mem_range.mp hj
      simp only [decide_eq_true_eq]
      by_cases hjT : j ∈ (workerRankings td w).take (min spots w.length)
      · rw [hwk]
        rw [(getD_foldl_incLocalsAt_mem _ _ _ (lq, lg) hnd hjT
          (show j < lq.length by omega) (show j < lg.length by omega)).1]
        simp [hjT]
      · rw [hwk]
        rw [(getD_foldl_incLocalsAt_not_mem _ _ _ (lq, lg) hjT).1]
        simp only [hjT, iff_false]
        omega
    rw [List.countP_congr hcong, countP_mem_nodup w.length _ hnd hsubT,
      List.length_take, length_workerRankings,
      min_eq_left (min_le_right spots w.length)]

set_option maxHeartbeats 2000000

/-- Claim C10 (witness): on the concrete 4-team league with a three-way tie
at 7 wins and 2 playoff spots, exactly 2 teams are incremented in each
engine's draw. -/
theorem draws_increment_witness :
    ((List.range c2teams.length).countP (fun j =>
        decide (((mcCountDraw c2teams c2league [7, 7, 7, 3]).getD j default).playoff_scenarios =
          (c2teams.getD j default).playoff_scenarios + 1)) =
      min c2league.number_of_playoff_teams c2teams.length) ∧
    ((List.range ([7, 7, 7, 3] : List ℕ).length).countP (fun j =>
        decide ((workerCountDraw (c2teams.map (fun t => (t.wins, t.fantasy_points_for)))
          c2league.number_of_playoff_teams [7, 7, 7, 3]
          (List.replicate 4 0, List.replicate 4 0)).1.getD j 0 =
          (List.replicate 4 (0 : ℕ)).getD j 0 + 1)) =
      min c2league.number_of_playoff_teams ([7, 7, 7, 3] : List ℕ).length) := by
  have h := draws_increment_exactly_min_spots c2teams c2league [7, 7, 7, 3] (by decide)
    (c2teams.map (fun t => (t.wins, t.fantasy_points_for)))
    c2league.number_of_playoff_teams (List.replicate 4 0) (List.replicate 4 0)
    (by decide) (by decide)
  exact ⟨h.1, h.2⟩

set_option maxHeartbeats 200000

/-! ## Claim C8: counters are bounded by the scenario totals -/

theorem mcApplyInc_counter_facts (c v : ℕ) (t : Team) :
    t.playoff_scenarios ≤ (mcApplyInc c v t).playoff_scenarios ∧
    (mcApplyInc c v t).playoff_scenarios ≤ t.playoff_scenarios + 1 ∧
    t.guaranteed_playoff_scenarios ≤ (mcApplyInc c v t).guaranteed_playoff_scenarios ∧
    (mcApplyInc c v t).guaranteed_playoff_scenarios + t.playoff_scenarios ≤
      t.guaranteed_playoff_scenarios + (mcApplyInc c v t).playoff_scenarios := by
  rw [mcApplyInc_q, mcApplyInc_g]
  split_ifs <;> omega

theorem mcCountDraw_countersAdd (teams : List Team) (league : League) (w : List ℕ) :
    CountersAdd 1 teams (mcCountDraw teams league w) := by
  have hfold := mcCountDraw_eq_take_fold teams league w
  have hnd : ((mcFinalRankings teams w).take
      (min league.number_of_playoff_teams (mcFinalRankings teams w).length)).Nodup :=
    List.Nodup.sublist (List.take_sublist _ _) (nodup_mcFinalRankings teams w)
  have hlen : (mcCountDraw teams league w).length = teams.length := by
    rw [hfold, length_foldl_incTeamAt]
  have hchar : ∀ j : ℕ, (mcCountDraw teams league w).getD j default = teams.getD j default ∨
      (mcCountDraw teams league w).getD j default =
        mcApplyInc (mcCutoffWins teams league w) (wGet w j) (teams.getD j default) := by
    intro j
    by_cases hj : j < teams.length
    · by_cases hjT : j ∈ (mcFinalRankings teams w).take
          (min league.number_of_playoff_teams (mcFinalRankings teams w).length)
      · right
        rw [hfold]
        exact getD_foldl_incTeamAt_mem _ _ _ _ hnd hjT hj
      · left
        rw [hfold]
        exact getD_foldl_incTeamAt_not_mem _ _ _ _ hjT
    · left
      rw [List.getD_eq_default _ _ (by rw [hlen]; omega), List.getD_eq_default _ _ (by omega)]
  refine ⟨⟨hlen, fun j => ?_⟩, fun j => ?_⟩
  · rcases hchar j with h | h
    · rw [h]
      exact ⟨le_refl _, le_refl _, le_refl _⟩
    · rw [h]
      have := mcApplyInc_counter_facts (mcCutoffWins teams league w) (wGet w j)
        (teams.getD j default)
      exact ⟨this.1, this.2.2.1, this.2.2.2⟩
  · rcases hchar j with h | h
    · rw [h]
      omega
    · rw [h]
      exact (mcApplyInc_counter_facts _ _ _).2.1

theorem countersAdd_foldl {β : Type} (B : ℕ) (step : List Team → β → List Team)
    (L : List β) (ts : List Team)
    (h : ∀ ts' b, b ∈ L → CountersAdd B ts' (step ts' b)) :
    CountersAdd (L.length * B) ts (L.foldl step ts) := by
  induction L generalizing ts with
  | nil => simpa using countersAdd_refl 0 ts
  | cons b L ih =>
    rw [List.foldl_cons, List.length_cons]
    have heq : (L.length + 1) * B = B + L.length * B := by ring
    rw [heq]
    exact countersAdd_trans (h ts b (List.mem_cons_self b L))
      (ih (step ts b) (fun ts' b' hb' => h ts' b' (List.mem_cons_of_mem _ hb')))

theorem monteCarloSimulation_countersAdd (N : ℕ) (teams : List Team)
    (matchups : List Matchup) (league : League) (tape : ℕ → ℕ → Bool) :
    CountersAdd N (resetCounters teams)
      (MonteCarloSimulation N teams matchups league tape) := by
  unfold MonteCarloSimulation
  dsimp only
  have h := countersAdd_foldl 1
    (fun ts k => mcSimStep league
      (matchups.filter (fun m => league.current_week ≤ m.matchup_period)) (tape k) ts)
    (List.range N) (resetCounters teams)
    (fun ts' b _ => by
      unfold mcSimStep
      exact mcCountDraw_countersAdd ts' league _)
  rw [List.length_range, mul_one] at h
  exact h

theorem combos_length (k : ℕ) : (combos k).length = 2 ^ k := by
  induction k with
  | zero => rfl
  | succ k ih =>
    simp only [combos, List.length_append, List.length_map, ih, pow_succ]
    omega

theorem totalMatchupsFrom_eq_last (league : League) (matchups : List Matchup) :
    totalMatchupsFrom league matchups league.last_week_of_regular_season =
      weeklyMatchupCount matchups league.last_week_of_regular_season := by
  unfold totalMatchupsFrom
  rw [show league.last_week_of_regular_season + 1 - league.last_week_of_regular_season = 1
    from by omega, List.range'_one]
  simp

theorem totalMatchupsFrom_succ (league : League) (matchups : List Matchup) (period : ℕ)
    (h : period ≤ league.last_week_of_regular_season) :
    totalMatchupsFrom league matchups period =
      weeklyMatchupCount matchups period + totalMatchupsFrom league matchups (period + 1) := by
  unfold totalMatchupsFrom
  rw [show league.last_week_of_regular_season + 1 - period =
    (league.last_week_of_regular_season - period) + 1 from by omega, List.range'_succ,
    show league.last_week_of_regular_season + 1 - (period + 1) =
      league.last_week_of_regular_season - period from by omega]
  simp

theorem pwm_aux_countersAdd (pruning : Bool) (league : League) (matchups : List Matchup) :
    ∀ fuel period, period ≤ league.last_week_of_regular_season →
      league.last_week_of_regular_season - period = fuel →
      ∀ (teams : List Team) (mat : List (List ℕ)),
      CountersAdd (2 ^ totalMatchupsFrom league matchups period) teams
        ((ProcessWeeklyMatchupsAux pruning league matchups fuel period teams mat).1) := by
  intro fuel
  induction fuel with
  | zero =>
    intro period hple hfuel teams mat
    have hpeq : period = league.last_week_of_regular_season := by omega
    subst hpeq
    unfold ProcessWeeklyMatchupsAux weeklyFold
    have heq : (combos (matchups.filter
        (fun m => m.matchup_period = league.last_week_of_regular_season)).length).length * 1 =
        2 ^ totalMatchupsFrom league matchups league.last_week_of_regular_season := by
      rw [combos_length, mul_one, totalMatchupsFrom_eq_last]
      rfl
    apply countersAdd_mono (le_of_eq heq)
    apply countersAdd_foldl_pairs
    intro st b _
    dsimp only
    split
    · exact countersAdd_refl 1 st.1
    · split
      · exact determine_countersAdd st.1 league _
      · exact countersAdd_refl 1 st.1
  | succ fuel ih =>
    intro period hple hfuel teams mat
    have hplt : period < league.last_week_of_regular_season := by omega
    unfold ProcessWeeklyMatchupsAux weeklyFold
    have heq : (combos (matchups.filter (fun m => m.matchup_period = period)).length).length *
        2 ^ totalMatchupsFrom league matchups (period + 1) =
        2 ^ totalMatchupsFrom league matchups period := by
      rw [combos_length, totalMatchupsFrom_succ league matchups period (by omega), pow_add]
      rfl
    apply countersAdd_mono (le_of_eq heq)
    apply countersAdd_foldl_pairs
    intro st b _
    dsimp only
    split
    · exact countersAdd_refl _ st.1
    · split
      · exact countersAdd_mono Nat.one_le_two_pow (determine_countersAdd st.1 league _)
      · exact ih (period + 1) (by omega) (by omega) st.1 _

theorem resetCounters_counters_zero (ts : List Team) (j : ℕ) :
    ((resetCounters ts).getD j default).playoff_scenarios = 0 ∧
    ((resetCounters ts).getD j default).guaranteed_playoff_scenarios = 0 := by
  by_cases hj : j < ts.length
  · unfold resetCounters
    rw [List.getD_eq_getElem _ _ (by simpa using hj), List.getElem_map]
    exact ⟨rfl, rfl⟩
  · rw [List.getD_eq_default _ _ (by rw [length_resetCounters]; omega)]
    exact ⟨rfl, rfl⟩

theorem pwm_countersAdd (teams : List Team) (matchups : List Matchup) (league : League)
    (mat : List (List ℕ)) :
    CountersAdd (2 ^ totalRemainingMatchups league matchups) teams
      ((ProcessWeeklyMatchups teams matchups league mat).1) := by
  unfold ProcessWeeklyMatchups totalRemainingMatchups
  by_cases hc : league.current_week ≤ league.last_week_of_regular_season
  · exact pwm_aux_countersAdd true league matchups _ league.current_week hc rfl teams mat
  · have hfuel : league.last_week_of_regular_season - league.current_week = 0 := by omega
    rw [hfuel]
    unfold ProcessWeeklyMatchupsAux weeklyFold
    apply countersAdd_mono (Nat.zero_le _)
    have heq : (combos (matchups.filter
        (fun m => m.matchup_period = league.current_week)).length).length * 0 = 0 :=
      mul_zero _
    apply countersAdd_mono (le_of_eq heq)
    apply countersAdd_foldl_pairs
    intro st b _
    dsimp only
    split
    · exact countersAdd_refl 0 st.1
    · split
      · next hper => exact absurd hper (by omega)
      · exact countersAdd_refl 0 st.1

theorem length_simulateWins (base : List ℕ) (remaining : List Matchup) (coins : ℕ → Bool) :
    (simulateWins base remaining coins).length = base.length := by
  unfold simulateWins
  generalize remaining.enum = l
  induction l generalizing base with
  | nil => rfl
  | cons p l ih =>
    rw [List.foldl_cons, ih]
    split <;> rw [length_listModify]

theorem workerCountDraw_locals_facts (td : List (ℕ × ℚ)) (spots : ℕ) (w : List ℕ)
    (st : List ℕ × List ℕ) (h1 : st.1.length = w.length) (h2 : st.2.length = w.length)
    (j : ℕ) :
    (workerCountDraw td spots w st).1.length = st.1.length ∧
    (workerCountDraw td spots w st).2.length = st.2.length ∧
    st.1.getD j 0 ≤ (workerCountDraw td spots w st).1.getD j 0 ∧
    (workerCountDraw td spots w st).1.getD j 0 ≤ st.1.getD j 0 + 1 ∧
    st.2.getD j 0 ≤ (workerCountDraw td spots w st).2.getD j 0 ∧
    (workerCountDraw td spots w st).2.getD j 0 + st.1.getD j 0 ≤
      st.2.getD j 0 + (workerCountDraw td spots w st).1.getD j 0 := by
  rw [workerCountDraw_eq_take_fold]
  refine ⟨length_foldl_incLocalsAt_fst _ _ _ _, length_foldl_incLocalsAt_snd _ _ _ _, ?_⟩
  by_cases hjT : j ∈ (workerRankings td w).take (min spots (workerSortedRecords td w).length)
  · have hnd : ((workerRankings td w).take
        (min spots (workerSortedRecords td w).length)).Nodup :=
      List.Nodup.sublist (List.take_sublist _ _) (nodup_workerRankings td w)
    have hjw : j < w.length := by
      have := (workerRankings_perm td w).mem_iff.mp ((List.take_sublist _ _).subset hjT)
      exact List.mem_range.mp this
    have h := getD_foldl_incLocalsAt_mem (workerCutoffWins td spots w) w _ st hnd hjT
      (by omega) (by omega)
    rw [h.1, h.2]
    split_ifs <;> omega
  · have h := getD_foldl_incLocalsAt_not_mem (workerCutoffWins td spots w) w _ st hjT
    rw [h.1, h.2]
    omega

theorem parallel_worker_locals_bound (remaining : List Matchup) (td : List (ℕ × ℚ))
    (spots : ℕ) (tape : ℕ → ℕ → Bool) :
    ∀ s j, (parallel_monte_carlo_worker s remaining td spots tape).1.length = td.length ∧
      (parallel_monte_carlo_worker s remaining td spots tape).2.length = td.length ∧
      (parallel_monte_carlo_worker s remaining td spots tape).1.getD j 0 ≤ s ∧
      (parallel_monte_carlo_worker s remaining td spots tape).2.getD j 0 ≤
        (parallel_monte_carlo_worker s remaining td spots tape).1.getD j 0 := by
  intro s
  induction s with
  | zero =>
    intro j
    refine ⟨by simp [parallel_monte_carlo_worker], by simp [parallel_monte_carlo_worker],
      ?_, ?_⟩ <;>
      simp [parallel_monte_carlo_worker, getD_replicate_zero]
  | succ s ih =>
    intro j
    have hw : (simulateWins (td.map (·.1)) remaining (tape s)).length = td.length := by
      rw [length_simulateWins, List.length_map]
    have hunfold : parallel_monte_carlo_worker (s + 1) remaining td spots tape =
        workerCountDraw td spots (simulateWins (td.map (·.1)) remaining (tape s))
          (parallel_monte_carlo_worker s remaining td spots tape) := by
      unfold parallel_monte_carlo_worker
      rw [List.range_succ, List.foldl_append, List.foldl_cons, List.foldl_nil]
    obtain ⟨hil1, hil2, hiq, hig⟩ := ih j
    obtain ⟨hl1, hl2, hq1, hq2, hg1, hcp⟩ := workerCountDraw_locals_facts td spots
      (simulateWins (td.map (·.1)) remaining (tape s))
      (parallel_monte_carlo_worker s remaining td spots tape)
      (by rw [hil1, hw]) (by rw [hil2, hw]) j
    rw [hunfold]
    exact ⟨by rw [hl1]; exact hil1, by rw [hl2]; exact hil2, by omega, by omega⟩

theorem length_foldl_listModify_range {α : Type} (f : ℕ → α → α) (n : ℕ) (l : List α) :
    ((List.range n).foldl (fun l2 i => listModify (f i) i l2) l).length = l.length := by
  induction n with
  | zero => rfl
  | succ n ih =>
    rw [List.range_succ, List.foldl_append, List.foldl_cons, List.foldl_nil,
      length_listModify, ih]

theorem getD_foldl_listModify_range {α : Type} (f : ℕ → α → α) (n : ℕ) (l : List α) (d : α)
    (j : ℕ) :
    ((List.range n).foldl (fun l2 i => listModify (f i) i l2) l).getD j d =
      if j < n ∧ j < l.length then f j (l.getD j d) else l.getD j d := by
  induction n with
  | zero =>
    rw [List.range_zero, List.foldl_nil, if_neg (by omega)]
  | succ n ih =>
    rw [List.range_succ, List.foldl_append, List.foldl_cons, List.foldl_nil]
    by_cases hjn : j = n
    · subst hjn
      by_cases hjl : j < l.length
      · rw [getD_listModify_self _ d (by rw [length_foldl_listModify_range]; exact hjl),
          ih, if_neg (by omega), if_pos ⟨by omega, hjl⟩]
      · have hlen : ((List.range j).foldl (fun l2 i => listModify (f i) i l2) l).length ≤ j := by
          rw [length_foldl_listModify_range]
          omega
        rw [listModify_of_length_le (f j) hlen, ih, if_neg (by omega), if_neg (by omega)]
    · rw [getD_listModify_ne _ _ d (fun hc => hjn hc.symm), ih]
      by_cases hcond : j < n ∧ j < l.length
      · rw [if_pos hcond, if_pos ⟨by omega, hcond.2⟩]
      · rw [if_neg hcond, if_neg (by omega)]

theorem agg_inner_countersAdd (n : ℕ) (res : List ℕ × List ℕ) (B : ℕ) (ts : List Team)
    (hres : ∀ j, res.1.getD j 0 ≤ B ∧ res.2.getD j 0 ≤ res.1.getD j 0) :
    CountersAdd B ts
      ((List.range n).foldl (fun ts2 i =>
        listModify (fun t =>
          { t with playoff_scenarios := t.playoff_scenarios + res.1.getD i 0,
                   guaranteed_playoff_scenarios :=
                     t.guaranteed_playoff_scenarios + res.2.getD i 0 }) i ts2) ts) := by
  refine ⟨⟨length_foldl_listModify_range _ _ _, fun j => ?_⟩, fun j => ?_⟩ <;>
    · have hb1 := (hres j).1
      have hb2 := (hres j).2
      rw [getD_foldl_listModify_range]
      split_ifs with h
      · dsimp only
        omega
      · omega

theorem parallelSimulation_countersAdd (N : ℕ) (teams : List Team) (matchups : List Matchup)
    (league : League) (cpu : ℕ) (tape : ℕ → ℕ → ℕ → Bool) :
    CountersAdd (parallelTotalDraws N cpu) (resetCounters teams)
      (parallel_monte_carlo_simulation N teams matchups league cpu tape) := by
  unfold parallel_monte_carlo_simulation
  dsimp only
  have h := countersAdd_foldl (N / numWorkers cpu)
    (fun ts res => (List.range teams.length).foldl (fun ts2 i =>
      listModify (fun t =>
        { t with playoff_scenarios := t.playoff_scenarios + res.1.getD i 0,
                 guaranteed_playoff_scenarios :=
                   t.guaranteed_playoff_scenarios + res.2.getD i 0 }) i ts2) ts)
    ((List.range (numWorkers cpu)).map (fun w =>
      parallel_monte_carlo_worker (N / numWorkers cpu)
        (matchups.filter (fun m => league.current_week ≤ m.matchup_period))
        (teams.map (fun t => (t.wins, t.fantasy_points_for)))
        league.number_of_playoff_teams (tape w)))
    (resetCounters teams)
    (fun ts' res hres => by
      obtain ⟨w, hw, hweq⟩ := List.mem_map.mp hres
      apply agg_inner_countersAdd
      intro j
      rw [← hweq]
      have hb := parallel_worker_locals_bound
        (matchups.filter (fun m => league.current_week ≤ m.matchup_period))
        (teams.map (fun t => (t.wins, t.fantasy_points_for)))
        league.number_of_playoff_teams (tape w) (N / numWorkers cpu) j
      exact ⟨hb.2.2.1, hb.2.2.2⟩)
  rw [List.length_map, List.length_range] at h
  exact h

theorem parallelTotalDraws_le (N cpu : ℕ) : parallelTotalDraws N cpu ≤ N := by
  unfold parallelTotalDraws
  rw [mul_comm]
  exact Nat.div_mul_le_self N (numWorkers cpu)

/-- Claim C8: in both modes, starting from zeroed counters, every team ends
with `qualifying_scenarios` at most the mode's total scenario count and
`guaranteed_scenarios` at most `qualifying_scenarios`.  Exact mode
(`ProcessWeeklyMatchups` from zeroed counters) is bounded by
`2 ^ (total remaining matchups)`; the single-threaded Monte Carlo engine and
the parallel Monte Carlo run are bounded by the requested draw count `N`,
and each parallel worker's local counts are bounded by its own share of the
draws. -/
theorem counters_bounded_by_total_scenarios :
    (∀ (teams : List Team) (matchups : List Matchup) (league : League)
        (mat : List (List ℕ)) (j : ℕ),
      (((ProcessWeeklyMatchups (resetCounters teams) matchups league mat).1.getD j
          default).playoff_scenarios ≤ 2 ^ totalRemainingMatchups league matchups ∧
        ((ProcessWeeklyMatchups (resetCounters teams) matchups league mat).1.getD j
          default).guaranteed_playoff_scenarios ≤
          ((ProcessWeeklyMatchups (resetCounters teams) matchups league mat).1.getD j
            default).playoff_scenarios)) ∧
    (∀ (N : ℕ) (teams : List Team) (matchups : List Matchup) (league : League)
        (tape : ℕ → ℕ → Bool) (j : ℕ),
      ((MonteCarloSimulation N teams matchups league tape).getD j
          default).playoff_scenarios ≤ N ∧
        ((MonteCarloSimulation N teams matchups league tape).getD j
          default).guaranteed_playoff_scenarios ≤
          ((MonteCarloSimulation N teams matchups league tape).getD j
            default).playoff_scenarios) ∧
    (∀ (N : ℕ) (teams : List Team) (matchups : List Matchup) (league : League)
        (cpu : ℕ) (tape : ℕ → ℕ → ℕ → Bool) (j : ℕ),
      ((parallel_monte_carlo_simulation N teams matchups league cpu tape).getD j
          default).playoff_scenarios ≤ N ∧
        ((parallel_monte_carlo_simulation N teams matchups league cpu tape).getD j
          default).guaranteed_playoff_scenarios ≤
          ((parallel_monte_carlo_simulation N teams matchups league cpu tape).getD j
            default).playoff_scenarios) ∧
    (∀ (s : ℕ) (remaining : List Matchup) (td : List (ℕ × ℚ)) (spots : ℕ)
        (tape : ℕ → ℕ → Bool) (j : ℕ),
      (parallel_monte_carlo_worker s remaining td spots tape).1.getD j 0 ≤ s ∧
        (parallel_monte_carlo_worker s remaining td spots tape).2.getD j 0 ≤
          (parallel_monte_carlo_worker s remaining td spots tape).1.getD j 0) := by
  refine ⟨fun teams matchups league mat j => ?_, fun N teams matchups league tape j => ?_,
    fun N teams matchups league cpu tape j => ?_, fun s remaining td spots tape j => ?_⟩
  · obtain ⟨hq0, hg0⟩ := resetCounters_counters_zero teams j
    obtain ⟨⟨_, hmono⟩, hadd⟩ := pwm_countersAdd (resetCounters teams) matchups league mat
    have h1 := hadd j
    have h2 := (hmono j).2.2
    constructor <;> omega
  · obtain ⟨hq0, hg0⟩ := resetCounters_counters_zero teams j
    obtain ⟨⟨_, hmono⟩, hadd⟩ := monteCarloSimulation_countersAdd N teams matchups league tape
    have h1 := hadd j
    have h2 := (hmono j).2.2
    constructor <;> omega
  · obtain ⟨hq0, hg0⟩ := resetCounters_counters_zero teams j
    obtain ⟨⟨_, hmono⟩, hadd⟩ :=
      parallelSimulation_countersAdd N teams matchups league cpu tape
    have h1 := hadd j
    have h2 := (hmono j).2.2
    have h3 := parallelTotalDraws_le N cpu
    constructor <;> omega
  · have hb := parallel_worker_locals_bound remaining td spots tape s j
    exact ⟨hb.2.2.1, hb.2.2.2⟩
